import Mathlib

/-!
Verification of the silk-sync-action synchronization engine.

The definitions below are a shallow embedding of the TypeScript sources:
`src/lib/sync/labels.ts`, `src/lib/sync/settings.ts`, `src/lib/sync/projects.ts`,
`src/lib/sync/index.ts` (processRepos / processRepo), `src/lib/rate-limit/throttle.ts`,
`src/lib/discovery/index.ts` / `org.ts` / `personal.ts` and `src/main.ts`.

Remote API calls are modelled by explicit outcome oracles (the same shape the
repository's mock REST/GraphQL layers use in its test suite); each embedded
function additionally returns the trace of remote calls it would issue, so
that claims about "a call is issued / skipped" can be stated.
-/

namespace SilkSync

/-- Per-character lowercase of a string, modelling JavaScript
`String.prototype.toLowerCase` as used by the sources (label names, colors,
full names, property keys). -/
def jsToLower (s : String) : String := String.mk (s.data.map Char.toLower)

-- ---------------------------------------------------------------------------
-- Error shapes (src/lib/schemas/errors.ts)
-- ---------------------------------------------------------------------------

/-- GitHub REST API error (`GitHubApiError` in `schemas/errors.ts`):
operation name, optional HTTP status code, reason. -/
structure GitHubApiError where
  operation : String
  statusCode : Option Nat
  reason : String
  deriving DecidableEq

/-- The `message` getter of `GitHubApiError`. -/
def GitHubApiError.message (e : GitHubApiError) : String :=
  let status := match e.statusCode with
    | some c => s!" ({c})"
    | none => ""
  s!"GitHub API error{status} during {e.operation}: {e.reason}"

/-- The `isNotFound` getter: statusCode = 404. -/
def GitHubApiError.isNotFound (e : GitHubApiError) : Bool := e.statusCode == some 404

/-- The `isValidationFailed` getter: statusCode = 422. -/
def GitHubApiError.isValidationFailed (e : GitHubApiError) : Bool := e.statusCode == some 422

/-- GitHub GraphQL API error (`GraphQLError` in `schemas/errors.ts`). -/
structure GraphQLError where
  operation : String
  reason : String
  deriving DecidableEq

/-- Character-list test used to model JavaScript `String.prototype.includes`. -/
def charsHaveLead (l pat : List Char) : Bool :=
  match l, pat with
  | _, [] => true
  | [], _ :: _ => false
  | a :: as, b :: bs => a == b && charsHaveLead as bs

/-- Substring occurrence test on character lists. -/
def charsContain (l pat : List Char) : Bool :=
  match l with
  | [] => pat.isEmpty
  | _ :: rest => charsHaveLead l pat || charsContain rest pat

/-- Model of JavaScript `String.prototype.includes`. -/
def jsIncludes (s pat : String) : Bool := charsContain s.data pat.data

/-- The `isAlreadyExists` getter of `GraphQLError`:
`reason.includes("already") || reason.includes("exists")`. -/
def GraphQLError.isAlreadyExists (e : GraphQLError) : Bool :=
  jsIncludes e.reason "already" || jsIncludes e.reason "exists"

/-- `LabelSyncError` (`schemas/errors.ts`): per-label error constructed inside the
label helpers of `sync/labels.ts`. -/
structure LabelSyncError where
  label : String
  operation : String
  reason : String
  deriving DecidableEq

/-- Per-operation error record (`SyncErrorRecord` in `schemas/index.ts`). -/
structure SyncErrorRecord where
  target : String
  operation : String
  error : String
  deriving DecidableEq

-- ---------------------------------------------------------------------------
-- Label data model (schemas/index.ts and services/types.ts)
-- ---------------------------------------------------------------------------

/-- A desired label from the config file (`LabelDefinition` in `schemas/index.ts`). -/
structure LabelDefinition where
  name : String
  description : String
  color : String
  deriving DecidableEq

/-- Raw label data from the GitHub API (`GitHubLabel` in `services/types.ts`). -/
structure GitHubLabel where
  id : Nat
  name : String
  description : Option String
  color : String
  deriving DecidableEq

/-- Label sync operation kind (`LabelOperation` in `schemas/index.ts`). -/
inductive LabelOperation where
  | created
  | updated
  | removed
  | unchanged
  deriving DecidableEq

/-- Result of syncing a single label (`LabelResult` in `schemas/index.ts`). -/
structure LabelResult where
  name : String
  operation : LabelOperation
  changes : Option (List String)
  deriving DecidableEq

/-- A REST mutation the label sync would issue. -/
inductive RestMutation where
  | createL (name : String)
  | updateL (currentName : String) (name : String)
  | deleteL (name : String)
  deriving DecidableEq

/-- Outcome oracle for the REST label operations consumed by `syncLabels`
(the repository's tests inject the same operations through its mock layer). -/
structure LabelEnv where
  listLabels : Except GitHubApiError (List GitHubLabel)
  createOutcome : LabelDefinition → Except GitHubApiError Unit
  updateOutcome : String → LabelDefinition → Except GitHubApiError Unit
  deleteOutcome : String → Except GitHubApiError Unit

/-- Output of `syncLabels`: the per-label results and custom label list the
source returns, plus the trace of attempted REST mutations and the
`LabelSyncError`s that were constructed, logged and swallowed. -/
structure LabelSyncOutput where
  results : List LabelResult
  customLabels : List String
  calls : List RestMutation
  caught : List LabelSyncError
  deriving DecidableEq

/-- Embedding of the `createLabel` helper of `sync/labels.ts`: in dry-run it
returns a `created` result without a call; otherwise it issues the create
call, catches a failure (constructing a `LabelSyncError`, logging it and
succeeding with `undefined`), and returns a `created` result either way. -/
def createLabel (env : LabelEnv) (label : LabelDefinition) (dryRun : Bool) :
    LabelResult × List RestMutation × List LabelSyncError :=
  if dryRun then
    (⟨label.name, .created, none⟩, [], [])
  else
    let caught := match env.createOutcome label with
      | .ok _ => []
      | .error e => [⟨label.name, "create", e.reason⟩]
    (⟨label.name, .created, none⟩, [.createL label.name], caught)

/-- Embedding of the `updateLabel` helper of `sync/labels.ts`. -/
def updateLabel (env : LabelEnv) (currentName : String) (label : LabelDefinition)
    (changes : List String) (dryRun : Bool) :
    LabelResult × List RestMutation × List LabelSyncError :=
  if dryRun then
    (⟨label.name, .updated, some changes⟩, [], [])
  else
    let caught := match env.updateOutcome currentName label with
      | .ok _ => []
      | .error e => [⟨label.name, "update", e.reason⟩]
    (⟨label.name, .updated, some changes⟩, [.updateL currentName label.name], caught)

/-- Embedding of the `removeLabel` helper of `sync/labels.ts`. -/
def removeLabel (env : LabelEnv) (labelName : String) (dryRun : Bool) :
    LabelResult × List RestMutation × List LabelSyncError :=
  if dryRun then
    (⟨labelName, .removed, none⟩, [], [])
  else
    let caught := match env.deleteOutcome labelName with
      | .ok _ => []
      | .error e => [⟨labelName, "remove", e.reason⟩]
    (⟨labelName, .removed, none⟩, [.deleteL labelName], caught)

/-- The case-insensitive lookup `existingLabels.find((l) => l.name.toLowerCase()
=== desired.name.toLowerCase())` from `syncLabels`. -/
def findExisting (existingLabels : List GitHubLabel) (name : String) : Option GitHubLabel :=
  existingLabels.find? (fun l => jsToLower l.name == jsToLower name)

/-- The change descriptions pushed by `syncLabels` when a matched label differs
(casing first, then description, then color, as in the source). -/
def labelChangeList (existing : GitHubLabel) (desired : LabelDefinition) : List String :=
  (if existing.name ≠ desired.name then
    [s!"name: \"{existing.name}\" -> \"{desired.name}\""] else [])
  ++ (if existing.description.getD "" ≠ desired.description then ["description"] else [])
  ++ (if jsToLower existing.color ≠ jsToLower desired.color then
    [s!"color: #{existing.color} -> #{desired.color}"] else [])

/-- The body of the per-desired-label loop of `syncLabels`: create when no
case-insensitive match exists, update when color (case-insensitive),
description (null coalesced to the empty string) or exact name casing
differ, and report `unchanged` otherwise. -/
def syncOneLabel (existingLabels : List GitHubLabel) (dryRun : Bool) (env : LabelEnv)
    (desired : LabelDefinition) : LabelResult × List RestMutation × List LabelSyncError :=
  match findExisting existingLabels desired.name with
  | none => createLabel env desired dryRun
  | some existing =>
    let colorDiffers := jsToLower existing.color ≠ jsToLower desired.color
    let descriptionDiffers := existing.description.getD "" ≠ desired.description
    let casingDiffers := existing.name ≠ desired.name
    if colorDiffers ∨ descriptionDiffers ∨ casingDiffers then
      updateLabel env existing.name desired (labelChangeList existing desired) dryRun
    else
      (⟨desired.name, .unchanged, none⟩, [], [])

/-- The custom label computation of `syncLabels`: observed labels whose
lowercased name is not among the lowercased desired names. -/
def customLabelsOf (existingLabels : List GitHubLabel)
    (desiredLabels : List LabelDefinition) : List String :=
  (existingLabels.filter
    (fun l => ¬ (desiredLabels.map (fun d => jsToLower d.name)).contains (jsToLower l.name))).map
    (fun l => l.name)

/-- Embedding of `syncLabels` (`sync/labels.ts`): list existing labels
(a listing failure is caught and treated as an empty list), compute custom
labels, run the per-desired-label loop in order, then remove custom labels
when requested. The loop iterations are independent, so the imperative
result/call accumulation is rendered as maps and joins. -/
def syncLabels (desiredLabels : List LabelDefinition) (dryRun removeCustom : Bool)
    (env : LabelEnv) : LabelSyncOutput :=
  let existingLabels := match env.listLabels with
    | .ok ls => ls
    | .error _ => []
  let customLabels := customLabelsOf existingLabels desiredLabels
  let perLabel := desiredLabels.map (syncOneLabel existingLabels dryRun env)
  let removals :=
    if removeCustom ∧ customLabels.length > 0 then
      customLabels.map (fun n => removeLabel env n dryRun)
    else []
  { results := perLabel.map (fun p => p.1) ++ removals.map (fun p => p.1)
    customLabels := customLabels
    calls := (perLabel.map (fun p => p.2.1)).flatten ++ (removals.map (fun p => p.2.1)).flatten
    caught := (perLabel.map (fun p => p.2.2)).flatten ++ (removals.map (fun p => p.2.2)).flatten }

-- ---------------------------------------------------------------------------
-- Settings data model (schemas/index.ts, services/types.ts, sync/settings.ts)
-- ---------------------------------------------------------------------------

/-- The thirteen whitelisted settings keys of `SYNCABLE_KEYS` in
`sync/settings.ts`. -/
inductive SettingKey where
  | has_wiki
  | has_issues
  | has_projects
  | has_discussions
  | allow_merge_commit
  | allow_squash_merge
  | squash_merge_commit_title
  | squash_merge_commit_message
  | allow_rebase_merge
  | allow_update_branch
  | delete_branch_on_merge
  | web_commit_signoff_required
  | allow_auto_merge
  deriving DecidableEq

/-- A settings value: the whitelisted keys carry booleans except the two squash
merge commit keys, which carry strings. -/
inductive SettingValue where
  | b (v : Bool)
  | s (v : String)
  deriving DecidableEq

/-- The `SYNCABLE_KEYS` whitelist of `sync/settings.ts`, in source order. -/
def SYNCABLE_KEYS : List SettingKey :=
  [.has_wiki, .has_issues, .has_projects, .has_discussions, .allow_merge_commit,
   .allow_squash_merge, .squash_merge_commit_title, .squash_merge_commit_message,
   .allow_rebase_merge, .allow_update_branch, .delete_branch_on_merge,
   .web_commit_signoff_required, .allow_auto_merge]

/-- The sparse desired settings map (`RepositorySettings` in `schemas/index.ts`:
every whitelisted key is optional). -/
structure RepositorySettings where
  has_wiki : Option Bool
  has_issues : Option Bool
  has_projects : Option Bool
  has_discussions : Option Bool
  allow_merge_commit : Option Bool
  allow_squash_merge : Option Bool
  squash_merge_commit_title : Option String
  squash_merge_commit_message : Option String
  allow_rebase_merge : Option Bool
  allow_update_branch : Option Bool
  delete_branch_on_merge : Option Bool
  web_commit_signoff_required : Option Bool
  allow_auto_merge : Option Bool
  deriving DecidableEq

/-- The desired settings map with no key present (`{}` in the config file). -/
def RepositorySettings.empty : RepositorySettings :=
  ⟨none, none, none, none, none, none, none, none, none, none, none, none, none⟩

/-- Raw repository data from the GitHub API (`GitHubRepo` in
`services/types.ts`). -/
structure GitHubRepo where
  node_id : String
  name : String
  full_name : String
  ownerLogin : String
  has_wiki : Bool
  has_issues : Bool
  has_projects : Bool
  has_discussions : Bool
  allow_merge_commit : Bool
  allow_squash_merge : Bool
  squash_merge_commit_title : String
  squash_merge_commit_message : String
  allow_rebase_merge : Bool
  allow_update_branch : Bool
  delete_branch_on_merge : Bool
  web_commit_signoff_required : Bool
  allow_auto_merge : Bool
  deriving DecidableEq

/-- The indexing `desiredSettings[key]` of the loop in `syncSettings`. -/
def RepositorySettings.get (d : RepositorySettings) : SettingKey → Option SettingValue
  | .has_wiki => d.has_wiki.map .b
  | .has_issues => d.has_issues.map .b
  | .has_projects => d.has_projects.map .b
  | .has_discussions => d.has_discussions.map .b
  | .allow_merge_commit => d.allow_merge_commit.map .b
  | .allow_squash_merge => d.allow_squash_merge.map .b
  | .squash_merge_commit_title => d.squash_merge_commit_title.map .s
  | .squash_merge_commit_message => d.squash_merge_commit_message.map .s
  | .allow_rebase_merge => d.allow_rebase_merge.map .b
  | .allow_update_branch => d.allow_update_branch.map .b
  | .delete_branch_on_merge => d.delete_branch_on_merge.map .b
  | .web_commit_signoff_required => d.web_commit_signoff_required.map .b
  | .allow_auto_merge => d.allow_auto_merge.map .b

/-- The indexing `currentRepo[key]` of the loop in `syncSettings`. -/
def GitHubRepo.get (r : GitHubRepo) : SettingKey → SettingValue
  | .has_wiki => .b r.has_wiki
  | .has_issues => .b r.has_issues
  | .has_projects => .b r.has_projects
  | .has_discussions => .b r.has_discussions
  | .allow_merge_commit => .b r.allow_merge_commit
  | .allow_squash_merge => .b r.allow_squash_merge
  | .squash_merge_commit_title => .s r.squash_merge_commit_title
  | .squash_merge_commit_message => .s r.squash_merge_commit_message
  | .allow_rebase_merge => .b r.allow_rebase_merge
  | .allow_update_branch => .b r.allow_update_branch
  | .delete_branch_on_merge => .b r.delete_branch_on_merge
  | .web_commit_signoff_required => .b r.web_commit_signoff_required
  | .allow_auto_merge => .b r.allow_auto_merge

/-- Single setting diff (`SettingChange` in `schemas/index.ts`). -/
structure SettingChange where
  key : SettingKey
  frm : SettingValue
  tov : SettingValue
  deriving DecidableEq

/-- One iteration of the diff loop of `syncSettings` for the change list: a
key whose desired value is undefined is skipped; a defined desired value
differing from the current one is collected as a change. -/
def changeEntry (desiredSettings : RepositorySettings) (currentRepo : GitHubRepo)
    (key : SettingKey) : Option SettingChange :=
  match desiredSettings.get key with
  | none => none
  | some desired =>
    if currentRepo.get key ≠ desired then
      some ⟨key, currentRepo.get key, desired⟩
    else none

/-- The diff loop of `syncSettings` over `SYNCABLE_KEYS`. -/
def computeSettingChanges (desiredSettings : RepositorySettings)
    (currentRepo : GitHubRepo) : List SettingChange :=
  SYNCABLE_KEYS.filterMap (changeEntry desiredSettings currentRepo)

/-- One iteration of the diff loop of `syncSettings` for the apply payload:
the changed key paired with its desired value. -/
def applyEntry (desiredSettings : RepositorySettings) (currentRepo : GitHubRepo)
    (key : SettingKey) : Option (SettingKey × SettingValue) :=
  match desiredSettings.get key with
  | none => none
  | some desired =>
    if currentRepo.get key ≠ desired then some (key, desired) else none

/-- The `settingsToApply` payload of `syncSettings`, collected alongside the
changes. -/
def settingsToApply (desiredSettings : RepositorySettings)
    (currentRepo : GitHubRepo) : List (SettingKey × SettingValue) :=
  SYNCABLE_KEYS.filterMap (applyEntry desiredSettings currentRepo)

/-- Result of `syncSettings` plus the trace of `updateRepo` calls it issued. -/
structure SettingsSyncOutput where
  changes : List SettingChange
  applied : Bool
  updateCalls : List (List (SettingKey × SettingValue))
  deriving DecidableEq

/-- Embedding of `syncSettings` (`sync/settings.ts`): diff the desired settings
against the observed repository; with no changes return `applied = true`
without a call; in dry-run return the changes with `applied = false`
without a call; otherwise issue the single batched update call, catching a
validation rejection or any other failure by returning `applied = false`.
The function never fails. -/
def syncSettings (desiredSettings : RepositorySettings) (currentRepo : GitHubRepo)
    (dryRun : Bool) (updateRepoOutcome : Except GitHubApiError Unit) : SettingsSyncOutput :=
  let changes := computeSettingChanges desiredSettings currentRepo
  let payload := settingsToApply desiredSettings currentRepo
  if changes.length = 0 then
    { changes := [], applied := true, updateCalls := [] }
  else if dryRun then
    { changes := changes, applied := false, updateCalls := [] }
  else
    let result := match updateRepoOutcome with
      | .ok _ => true
      | .error _ => false
    { changes := changes, applied := result, updateCalls := [payload] }

-- ---------------------------------------------------------------------------
-- Remote effect of applying a computed label diff (for the idempotence claim)
-- ---------------------------------------------------------------------------

/-- The observed label a successful create or update call leaves behind: the
desired name, color and description. -/
def labelOfDef (d : LabelDefinition) (id : Nat) : GitHubLabel :=
  { id := id, name := d.name, description := some d.description, color := d.color }

/-- The desired label whose update operation targets a given observed label:
the first desired label whose case-insensitive lookup finds it. -/
def targetOf (existingLabels : List GitHubLabel) (desiredLabels : List LabelDefinition)
    (l : GitHubLabel) : Option LabelDefinition :=
  desiredLabels.find? (fun d => decide (findExisting existingLabels d.name = some l))

/-- What applying the diff leaves of one observed label: an updated label
takes its desired fields in place, a custom label disappears when custom
removal is on, any other label stays as is. -/
def applyOne (existingLabels : List GitHubLabel) (desiredLabels : List LabelDefinition)
    (removeCustom : Bool) (l : GitHubLabel) : Option GitHubLabel :=
  match targetOf existingLabels desiredLabels l with
  | some d => some (labelOfDef d l.id)
  | none =>
    if removeCustom ∧ ¬ (desiredLabels.map (fun d => jsToLower d.name)).contains (jsToLower l.name)
    then none
    else some l

/-- The observed state after applying the computed label diff once: each
updated label takes its desired name, color and description in place; each
removed custom label disappears (when custom removal is on); each created
label is added with its desired fields. -/
def applyLabelDiff (existingLabels : List GitHubLabel)
    (desiredLabels : List LabelDefinition) (removeCustom : Bool) : List GitHubLabel :=
  existingLabels.filterMap (applyOne existingLabels desiredLabels removeCustom)
  ++ (desiredLabels.filter (fun d => (findExisting existingLabels d.name).isNone)).map
    (fun d => labelOfDef d 0)

-- ---------------------------------------------------------------------------
-- Projects (sync/projects.ts)
-- ---------------------------------------------------------------------------

/-- Resolved GitHub Projects V2 project (`ProjectInfo` in `schemas/index.ts`). -/
structure ProjectInfo where
  id : String
  title : String
  number : Nat
  closed : Bool
  deriving DecidableEq

/-- Cached project resolution result (`ProjectCacheEntry` in
`sync/projects.ts`): success with the project, or failure with a reason. -/
inductive ProjectCacheEntry where
  | ok (project : ProjectInfo)
  | err (error : String)
  deriving DecidableEq

/-- In-memory project cache keyed by project number (`ProjectCache`), modelled
as an association list in insertion order. -/
def ProjectCache := List (Nat × ProjectCacheEntry)

/-- Lookup in the project cache (`projectCache.get(projectNumber)`). -/
def cacheFind (cache : ProjectCache) (num : Nat) : Option ProjectCacheEntry :=
  (List.find? (fun p => p.1 == num) cache).map (fun p => p.2)

/-- How one loop iteration of `resolveProjects` turns a resolve outcome into a
cache entry: a closed project and a resolution error are both cached as
failures with a descriptive reason. -/
def cacheEntryOfOutcome (outcome : Except GraphQLError ProjectInfo) : ProjectCacheEntry :=
  match outcome with
  | .ok project =>
    if project.closed then .err (s!"Project \"{project.title}\" is closed")
    else .ok project
  | .error e => .err e.reason

/-- The dedup `[...new Set(projectNumbers)]` of `resolveProjects`: keep the
first occurrence of each number, in order. -/
def jsSetDedup : List Nat → List Nat
  | [] => []
  | n :: rest => n :: (jsSetDedup rest).filter (fun m => m ≠ n)

/-- Output of `resolveProjects`: the populated cache and the trace of
`resolveProject` calls issued. -/
structure ResolveOutput where
  cache : ProjectCache
  calls : List Nat

/-- Embedding of `resolveProjects` (`sync/projects.ts`): dedup the referenced
numbers, issue one resolve call per distinct number, and record each
outcome in the cache. -/
def resolveProjects (projectNumbers : List Nat)
    (resolveOutcome : Nat → Except GraphQLError ProjectInfo) : ResolveOutput :=
  let unique := jsSetDedup projectNumbers
  { cache := unique.map (fun num => (num, cacheEntryOfOutcome (resolveOutcome num)))
    calls := unique }

/-- Project link status (`ProjectLinkStatus` in `schemas/index.ts`). -/
inductive LinkStatus where
  | linked
  | already
  | dryrun
  | error
  | skipped
  deriving DecidableEq

/-- Raw issue/PR data from the GitHub API (`GitHubIssue` in
`services/types.ts`), reduced to the node id consumed by the backfill. -/
structure GitHubIssue where
  node_id : String
  deriving DecidableEq

/-- Outcome oracle for the GraphQL and paginated REST operations consumed by
`syncProject`: the link call outcome, the successive `listOpenIssues`
pages, and the per-item add outcome. -/
structure ProjectEnv where
  linkOutcome : Except GraphQLError Unit
  pages : List (Except GitHubApiError (List GitHubIssue))
  addOutcome : String → Except GraphQLError Unit

/-- Embedding of the `linkRepo` helper of `sync/projects.ts`: dry-run short
circuits; an "already exists" rejection maps to `already`; any other
failure maps to `error`. -/
def linkRepo (dryRun : Bool) (outcome : Except GraphQLError Unit) : LinkStatus :=
  if dryRun then .dryrun
  else match outcome with
    | .ok _ => .linked
    | .error e => if e.isAlreadyExists then .already else .error

/-- One page of the backfill loop of `backfillItems`: dry-run counts every item
as added; otherwise each add outcome is classified as added, already
present, or silently dropped on other errors. -/
def backfillPage (dryRun : Bool) (addOutcome : String → Except GraphQLError Unit)
    (items : List GitHubIssue) : Nat × Nat :=
  items.foldl (fun acc item =>
    if dryRun then (acc.1 + 1, acc.2)
    else match addOutcome item.node_id with
      | .ok _ => (acc.1 + 1, acc.2)
      | .error e => if e.isAlreadyExists then (acc.1, acc.2 + 1) else acc) (0, 0)

/-- Embedding of the pagination loop of `backfillItems` (`sync/projects.ts`):
a page listing failure is caught as an empty page; an empty page stops the
loop; a page shorter than 100 items is the last one. -/
def backfillLoop (dryRun : Bool) (addOutcome : String → Except GraphQLError Unit) :
    List (Except GitHubApiError (List GitHubIssue)) → Nat × Nat
  | [] => (0, 0)
  | p :: rest =>
    let items := match p with
      | .ok l => l
      | .error _ => []
    if items.length = 0 then (0, 0)
    else
      let page := backfillPage dryRun addOutcome items
      if items.length < 100 then page
      else
        let tail := backfillLoop dryRun addOutcome rest
        (page.1 + tail.1, page.2 + tail.2)

/-- Result of `syncProject` for one repository. -/
structure ProjectSyncOutput where
  projectTitle : Option String
  linkStatus : LinkStatus
  itemsAdded : Nat
  itemsAlreadyPresent : Nat
  deriving DecidableEq

/-- Embedding of `syncProject` (`sync/projects.ts`): a missing or failed cache
entry yields `skipped`; otherwise link, then backfill unless skipped or the
link errored. -/
def syncProject (projectNumber : Nat) (projectCache : ProjectCache)
    (dryRun skipBackfill : Bool) (env : ProjectEnv) : ProjectSyncOutput :=
  match cacheFind projectCache projectNumber with
  | none => ⟨none, .skipped, 0, 0⟩
  | some (.err _) => ⟨none, .skipped, 0, 0⟩
  | some (.ok project) =>
    let linkStatus := linkRepo dryRun env.linkOutcome
    if ¬ skipBackfill ∧ linkStatus ≠ .error then
      let backfill := backfillLoop dryRun env.addOutcome env.pages
      ⟨some project.title, linkStatus, backfill.1, backfill.2⟩
    else
      ⟨some project.title, linkStatus, 0, 0⟩

-- ---------------------------------------------------------------------------
-- Rate limiting (rate-limit/throttle.ts)
-- ---------------------------------------------------------------------------

/-- REST warning threshold (`REST_WARNING_THRESHOLD` in `throttle.ts`). -/
def REST_WARNING_THRESHOLD : Nat := 100

/-- REST pause threshold (`REST_PAUSE_THRESHOLD`). -/
def REST_PAUSE_THRESHOLD : Nat := 50

/-- REST pause duration in milliseconds (`REST_PAUSE_DURATION_MS`). -/
def REST_PAUSE_DURATION_MS : Nat := 60000

/-- JavaScript `Number.MAX_SAFE_INTEGER`, returned by the rate checks when the
quota query is unavailable or fails. -/
def MAX_SAFE_INTEGER : Nat := 2 ^ 53 - 1

/-- Rate limit information (`RateLimitInfo` in `services/types.ts`): remaining
and reset for the core and graphql pools. -/
structure RateLimitInfo where
  coreRemaining : Nat
  coreReset : Nat
  graphqlRemaining : Nat
  graphqlReset : Nat
  deriving DecidableEq

/-- Observable outcome of one `checkRestRateLimit` run: the returned remaining
count, the pause duration slept, and which warnings were logged. -/
structure RateCheckResult where
  remaining : Nat
  pausedMs : Nat
  criticalWarn : Bool
  lowWarn : Bool
  deriving DecidableEq

/-- Embedding of `checkRestRateLimit` (`rate-limit/throttle.ts`): an absent
client or a failed quota query degrades to `MAX_SAFE_INTEGER` with no pause
and no warning; below the pause threshold it logs a critical warning and
pauses for the fixed duration; below the warning threshold it logs a
warning only; the observed remaining count is returned in every case. -/
def checkRestRateLimit (clientAvailable : Bool)
    (fetchOutcome : Except GitHubApiError RateLimitInfo) : RateCheckResult :=
  if ¬ clientAvailable then ⟨MAX_SAFE_INTEGER, 0, false, false⟩
  else match fetchOutcome with
    | .error _ => ⟨MAX_SAFE_INTEGER, 0, false, false⟩
    | .ok rateLimit =>
      let remaining := rateLimit.coreRemaining
      if remaining < REST_PAUSE_THRESHOLD then
        ⟨remaining, REST_PAUSE_DURATION_MS, true, false⟩
      else if remaining < REST_WARNING_THRESHOLD then
        ⟨remaining, 0, false, true⟩
      else
        ⟨remaining, 0, false, false⟩

-- ---------------------------------------------------------------------------
-- Discovery (discovery/org.ts, discovery/personal.ts, discovery/index.ts)
-- ---------------------------------------------------------------------------

/-- Discovered repository with metadata (`DiscoveredRepo` in
`schemas/index.ts`); the string-to-string attribute map is an association
list over exact keys. -/
structure DiscoveredRepo where
  name : String
  owner : String
  fullName : String
  nodeId : String
  customProperties : List (String × String)
  deriving DecidableEq

/-- Repo discovery error (`DiscoveryError` in `schemas/errors.ts`). -/
structure DiscoveryError where
  reason : String
  deriving DecidableEq

/-- JavaScript object property access over the attribute map. -/
def propLookup (props : List (String × String)) (key : String) : Option String :=
  (props.find? (fun p => p.1 == key)).map (fun p => p.2)

/-- The owner/name parsing of `discoverByExplicitList`:
`rawName.includes("/") ? rawName.split("/", 2) : [defaultOwner, rawName]`. -/
def splitOwnerRepo (defaultOwner rawName : String) : String × String :=
  if jsIncludes rawName "/" then
    match rawName.splitOn "/" with
    | o :: r :: _ => (o, r)
    | _ => (defaultOwner, rawName)
  else (defaultOwner, rawName)

/-- The `DiscoveredRepo` built by `discoverByExplicitList` from validated repo
data: explicit discovery always attaches an empty attribute map. -/
def explicitRepoOfData (data : GitHubRepo) : DiscoveredRepo :=
  { name := data.name, owner := data.ownerLogin, fullName := data.full_name,
    nodeId := data.node_id, customProperties := [] }

/-- One loop iteration of `discoverByExplicitList`: a validated repo is
collected; a failure is recorded as an error message and skipped. -/
def explicitStep (defaultOwner : String)
    (getRepoOutcome : String → String → Except GitHubApiError GitHubRepo)
    (acc : List DiscoveredRepo × List String) (rawName : String) :
    List DiscoveredRepo × List String :=
  let owner := (splitOwnerRepo defaultOwner rawName).1
  let repo := (splitOwnerRepo defaultOwner rawName).2
  match getRepoOutcome owner repo with
  | .ok data => (acc.1 ++ [explicitRepoOfData data], acc.2)
  | .error e =>
    if e.isNotFound then (acc.1, acc.2 ++ [s!"{owner}/{repo} (not found)"])
    else (acc.1, acc.2 ++ [s!"{owner}/{repo} ({e.reason})"])

/-- Embedding of `discoverByExplicitList` (`discovery/personal.ts`): validate
each listed name; unresolvable names are recorded but only abort the call
when every listed name failed. -/
def discoverByExplicitList (defaultOwner : String) (repoNames : List String)
    (getRepoOutcome : String → String → Except GitHubApiError GitHubRepo) :
    Except DiscoveryError (List DiscoveredRepo) :=
  if repoNames.isEmpty then .ok []
  else if (repoNames.foldl (explicitStep defaultOwner getRepoOutcome) ([], [])).1.isEmpty
      ∧ ¬ (repoNames.foldl (explicitStep defaultOwner getRepoOutcome) ([], [])).2.isEmpty then
    .error ⟨"None of the specified repos could be validated: "
      ++ String.intercalate ", "
        (repoNames.foldl (explicitStep defaultOwner getRepoOutcome) ([], [])).2⟩
  else .ok (repoNames.foldl (explicitStep defaultOwner getRepoOutcome) ([], [])).1

/-- JavaScript `Map.prototype.set`: replace the value of an existing key in
place, otherwise append the new entry. -/
def mapSet (m : List (String × DiscoveredRepo)) (key : String) (v : DiscoveredRepo) :
    List (String × DiscoveredRepo) :=
  if m.any (fun p => p.1 == key) then m.map (fun p => if p.1 == key then (key, v) else p)
  else m ++ [(key, v)]

/-- JavaScript object spread `{...a, ...b}` over string-to-string maps:
values of `b` win on shared keys, keys of `a` keep their order, keys only
in `b` are appended. -/
def jsObjSpread (a b : List (String × String)) : List (String × String) :=
  a.map (fun p =>
    match b.find? (fun q => q.1 == p.1) with
    | some q => (p.1, q.2)
    | none => p)
  ++ b.filter (fun q => ¬ a.any (fun p => p.1 == q.1))

/-- One iteration of the explicit-repo merge loop of `discoverRepos`
(`discovery/index.ts`): a new full name is inserted; a duplicate is
replaced by the explicit record with the attribute maps spread so that the
attribute-filtered (org) entry's values win. -/
def mergeStep (m : List (String × DiscoveredRepo)) (repo : DiscoveredRepo) :
    List (String × DiscoveredRepo) :=
  match m.find? (fun p => p.1 == jsToLower repo.fullName) with
  | none => mapSet m (jsToLower repo.fullName) repo
  | some pair =>
    mapSet m (jsToLower repo.fullName)
      { repo with customProperties := jsObjSpread repo.customProperties pair.2.customProperties }

/-- The merge of `discoverRepos` (`discovery/index.ts`): insert the
attribute-filtered (org) results into a map keyed by lowercased full name,
then merge the explicit-list results into it, and read the values off in
insertion order. -/
def discoverReposMerge (orgRepos explicitRepos : List DiscoveredRepo) : List DiscoveredRepo :=
  let m1 := orgRepos.foldl (fun m r => mapSet m (jsToLower r.fullName) r) []
  let m2 := explicitRepos.foldl mergeStep m1
  m2.map (fun p => p.2)

/-- Embedding of `discoverRepos` (`discovery/index.ts`) after both discovery
modes ran: merge their results and fail when the merged set is empty. -/
def discoverRepos (orgRepos explicitRepos : List DiscoveredRepo) :
    Except DiscoveryError (List DiscoveredRepo) :=
  let allRepos := discoverReposMerge orgRepos explicitRepos
  if allRepos.length = 0 then
    .error ⟨"No repositories discovered. Check your custom-properties and/or repos inputs."⟩
  else .ok allRepos

-- ---------------------------------------------------------------------------
-- Orchestration (sync/index.ts and main.ts)
-- ---------------------------------------------------------------------------

/-- The subset of the parsed action inputs (`ActionInputs` in
`schemas/index.ts`) consumed by the sync engine. -/
structure ActionInputs where
  dryRun : Bool
  removeCustomLabels : Bool
  syncSettings : Bool
  syncProjects : Bool
  skipBackfill : Bool
  deriving DecidableEq

/-- Complete sync configuration file (`SilkConfig` in `schemas/index.ts`). -/
structure SilkConfig where
  labels : List LabelDefinition
  settings : RepositorySettings

/-- Complete result for a single repository sync (`RepoSyncResult` in
`schemas/index.ts`). -/
structure RepoSyncResult where
  repo : String
  owner : String
  labels : List LabelResult
  customLabels : List String
  settingChanges : List SettingChange
  settingsApplied : Bool
  projectNumber : Option Nat
  projectTitle : Option String
  projectLinkStatus : Option LinkStatus
  itemsAdded : Nat
  itemsAlreadyPresent : Nat
  errors : List SyncErrorRecord
  success : Bool
  deriving DecidableEq

/-- Outcome oracle for every remote operation one `processRepo` run consumes. -/
structure RepoEnv where
  getRepo : Except GitHubApiError GitHubRepo
  labels : LabelEnv
  updateRepoOutcome : Except GitHubApiError Unit
  project : ProjectEnv

/-- The digits-to-number fold behind the `Number.parseInt(str, 10)` model. -/
def digitsVal (cs : List Char) : Nat :=
  cs.foldl (fun acc c => acc * 10 + (c.toNat - '0'.toNat)) 0

/-- Model of `Number.parseInt(str, 10)`: skip leading whitespace, accept an
optional sign, then read a leading run of decimal digits; no digit yields
NaN, modelled as `none` (the `Number.isFinite` guard then fails). -/
def jsParseInt (str : String) : Option Int :=
  let cs := str.data.dropWhile (fun c => c == ' ' ∨ c == '\t' ∨ c == '\n' ∨ c == '\r')
  let signed : Bool × List Char :=
    match cs with
    | '-' :: rest => (true, rest)
    | '+' :: rest => (false, rest)
    | l => (false, l)
  let ds := signed.2.takeWhile Char.isDigit
  if ds.isEmpty then none
  else if signed.1 then some (-(digitsVal ds : Int)) else some (digitsVal ds : Int)

/-- Embedding of `getProjectNumber` (`sync/index.ts`): the repo is
project-tracked when the `project-tracking` attribute is the string "true"
and the `project-number` attribute is a truthy string parsing to a finite
number greater than zero. -/
def getProjectNumber (repo : DiscoveredRepo) : Option Nat :=
  match propLookup repo.customProperties "project-tracking",
        propLookup repo.customProperties "project-number" with
  | some "true", some numStr =>
    if numStr = "" then none
    else
      match jsParseInt numStr with
      | some num => if num > 0 then some num.toNat else none
      | none => none
  | _, _ => none

/-- Embedding of `processRepo` (`sync/index.ts`): fetch the repository state
(a failure is pushed onto the error list and processing continues), sync
labels, sync settings when enabled and the state fetch succeeded, sync the
project when enabled and the repo is project-tracked, then assemble the
`RepoSyncResult` with `success = no accumulated errors`. -/
def processRepo (repo : DiscoveredRepo) (config : SilkConfig) (projectCache : ProjectCache)
    (inputs : ActionInputs) (env : RepoEnv) : RepoSyncResult :=
  let errors : List SyncErrorRecord :=
    match env.getRepo with
    | .ok _ => []
    | .error e => [⟨"repo", "get", e.message⟩]
  let repoData : Option GitHubRepo :=
    match env.getRepo with
    | .ok d => some d
    | .error _ => none
  let labelResult := syncLabels config.labels inputs.dryRun inputs.removeCustomLabels env.labels
  let settingsResult : List SettingChange × Bool :=
    match repoData with
    | some d =>
      if inputs.syncSettings then
        let o := syncSettings config.settings d inputs.dryRun env.updateRepoOutcome
        (o.changes, o.applied)
      else ([], true)
    | none => ([], true)
  let projectNumber := getProjectNumber repo
  let projectResult : Option String × Option LinkStatus × Nat × Nat :=
    match projectNumber with
    | some num =>
      if inputs.syncProjects then
        let o := syncProject num projectCache inputs.dryRun inputs.skipBackfill env.project
        (o.projectTitle, some o.linkStatus, o.itemsAdded, o.itemsAlreadyPresent)
      else (none, none, 0, 0)
    | none => (none, none, 0, 0)
  { repo := repo.name
    owner := repo.owner
    labels := labelResult.results
    customLabels := labelResult.customLabels
    settingChanges := settingsResult.1
    settingsApplied := settingsResult.2
    projectNumber := projectNumber
    projectTitle := projectResult.1
    projectLinkStatus := projectResult.2.1
    itemsAdded := projectResult.2.2.1
    itemsAlreadyPresent := projectResult.2.2.2
    errors := errors
    success := errors.isEmpty }

/-- The sequential loop of `processRepos` with the running repository index
(the index drives only the periodic rate check and inter-repo delay in the
source; here it selects each repository's outcome oracle). -/
def processReposAux (config : SilkConfig) (projectCache : ProjectCache)
    (inputs : ActionInputs) (env : Nat → RepoEnv) :
    Nat → List DiscoveredRepo → List RepoSyncResult
  | _, [] => []
  | i, repo :: rest =>
    processRepo repo config projectCache inputs (env i)
      :: processReposAux config projectCache inputs env (i + 1) rest

/-- Embedding of `processRepos` (`sync/index.ts`): process every discovered
repository strictly sequentially, collecting one result per repository. -/
def processRepos (repos : List DiscoveredRepo) (config : SilkConfig)
    (projectCache : ProjectCache) (inputs : ActionInputs) (env : Nat → RepoEnv) :
    List RepoSyncResult :=
  processReposAux config projectCache inputs env 0 repos

/-- Embedding of `extractProjectNumbers` (`main.ts`), which repeats the
project-tracking attribute logic of `getProjectNumber` and collects the
distinct numbers through a `Set`. -/
def extractProjectNumbers (repos : List DiscoveredRepo) : List Nat :=
  jsSetDedup (repos.filterMap getProjectNumber)

/-- The sync phase of the `main.ts` program: resolve every referenced project
into the cache first (only when project sync is enabled), then process the
repositories against that fully populated cache. -/
def mainSyncPhase (repos : List DiscoveredRepo) (config : SilkConfig)
    (inputs : ActionInputs) (resolveOutcome : Nat → Except GraphQLError ProjectInfo)
    (env : Nat → RepoEnv) : List RepoSyncResult :=
  let projectNumbers := if inputs.syncProjects then extractProjectNumbers repos else []
  let projectCache := (resolveProjects projectNumbers resolveOutcome).cache
  processRepos repos config projectCache inputs env

-- ---------------------------------------------------------------------------
-- Concrete fixtures used by witnesses and counterexamples
-- ---------------------------------------------------------------------------

/-- A label environment whose every remote call succeeds over an empty
repository. -/
def okLabelEnv : LabelEnv :=
  ⟨.ok [], fun _ => .ok (), fun _ _ => .ok (), fun _ => .ok ()⟩

/-- A project environment whose every remote call succeeds and that has no
open issues. -/
def okProjectEnv : ProjectEnv := ⟨.ok (), [], fun _ => .ok ()⟩

/-- A sample observed repository. -/
def sampleRepoData : GitHubRepo :=
  ⟨"R_1", "repo-a", "org/repo-a", "org", true, true, true, false, true, true,
    "PR_TITLE", "PR_BODY", true, false, false, false, false⟩

/-- A sample discovered repository without project tracking attributes. -/
def sampleDiscovered : DiscoveredRepo := ⟨"repo-a", "org", "org/repo-a", "R_1", []⟩

/-- A repository environment whose every remote call succeeds. -/
def okRepoEnv : RepoEnv := ⟨.ok sampleRepoData, okLabelEnv, .ok (), okProjectEnv⟩

/-- Sample inputs: a non-dry-run with settings and project sync enabled. -/
def sampleInputs : ActionInputs := ⟨false, false, true, true, false⟩

/-- A sample configuration with one desired label and no desired settings. -/
def sampleConfig : SilkConfig :=
  ⟨[⟨"bug", "Something is broken", "d73a4a"⟩], RepositorySettings.empty⟩

/-- A repository environment in which the label create call fails with a 500
while every other remote call succeeds. -/
def failingCreateEnv : RepoEnv :=
  { okRepoEnv with labels :=
      { okLabelEnv with createOutcome := fun _ => .error ⟨"createLabel", some 500, "boom"⟩ } }

/-- The map key of the merged repositories: the lowercased full name. -/
def repoKey (r : DiscoveredRepo) : String := jsToLower r.fullName

/-- Binding lookup in the JavaScript-map model. -/
def mapGet (m : List (String × DiscoveredRepo)) (k : String) :
    Option (String × DiscoveredRepo) :=
  m.find? (fun p => p.1 == k)

/-- Structural invariant of the merge map: binding keys are duplicate-free and
each value's lowercased full name is its key. -/
def mergedInv (m : List (String × DiscoveredRepo)) : Prop :=
  (m.map (fun p => p.1)).Nodup ∧ ∀ p ∈ m, jsToLower p.2.fullName = p.1

-- ---------------------------------------------------------------------------
-- Theorems
-- ---------------------------------------------------------------------------

/-- The index-threaded loop of `processRepos` produces exactly the image of the
input list, in order, with the running index selecting each oracle. -/
theorem processReposAux_getElem (config : SilkConfig) (projectCache : ProjectCache)
    (inputs : ActionInputs) (env : Nat → RepoEnv) (repos : List DiscoveredRepo) :
    ∀ (k i : Nat),
      (processReposAux config projectCache inputs env k repos)[i]?
        = (repos[i]?).map (fun r => processRepo r config projectCache inputs (env (k + i))) := by
  induction repos with
  | nil => intro k i; simp [processReposAux]
  | cons r rest ih =>
    intro k i
    cases i with
    | zero => simp [processReposAux]
    | succ j =>
      have harith : k + 1 + j = k + (j + 1) := by omega
      simp only [processReposAux, List.getElem?_cons_succ, ih (k + 1) j, harith]

/-- The loop of `processRepos` yields one result per input repository. -/
theorem processReposAux_length (config : SilkConfig) (projectCache : ProjectCache)
    (inputs : ActionInputs) (env : Nat → RepoEnv) (repos : List DiscoveredRepo) :
    ∀ k, (processReposAux config projectCache inputs env k repos).length = repos.length := by
  induction repos with
  | nil => intro k; rfl
  | cons r rest ih => intro k; simp [processReposAux, ih (k + 1)]

/-- The success flag of a `processRepo` result is the emptiness of its
accumulated error list. -/
theorem processRepo_success_eq (repo : DiscoveredRepo) (config : SilkConfig)
    (projectCache : ProjectCache) (inputs : ActionInputs) (env : RepoEnv) :
    (processRepo repo config projectCache inputs env).success
      = (processRepo repo config projectCache inputs env).errors.isEmpty := by
  unfold processRepo
  cases env.getRepo <;> rfl

/-- C1: the orchestrator never fails and returns exactly one `RepoSyncResult`
per input repository, in input order; each result's success flag is true
exactly when that repository's accumulated error list is empty. -/
theorem processRepos_one_result_each (repos : List DiscoveredRepo) (config : SilkConfig)
    (projectCache : ProjectCache) (inputs : ActionInputs) (env : Nat → RepoEnv) :
    (processRepos repos config projectCache inputs env).length = repos.length
    ∧ (∀ i : Nat, (processRepos repos config projectCache inputs env)[i]?
        = (repos[i]?).map (fun r => processRepo r config projectCache inputs (env i)))
    ∧ ∀ res ∈ processRepos repos config projectCache inputs env,
        (res.success = true ↔ res.errors = []) := by
  refine ⟨processReposAux_length config projectCache inputs env repos 0, ?_, ?_⟩
  · intro i
    simpa using processReposAux_getElem config projectCache inputs env repos 0 i
  · intro res hres
    have hsucc : res.success = res.errors.isEmpty := by
      rcases List.mem_iff_getElem?.mp hres with ⟨i, hi⟩
      have h := processReposAux_getElem config projectCache inputs env repos 0 i
      rw [show processReposAux config projectCache inputs env 0 repos
          = processRepos repos config projectCache inputs env from rfl, hi] at h
      rcases Option.map_eq_some'.mp h.symm with ⟨r, _, hr⟩
      rw [← hr]
      exact processRepo_success_eq r config projectCache inputs (env (0 + i))
    rw [hsucc, List.isEmpty_iff]

/-- Witness for C1 at a concrete singleton run. -/
theorem processRepos_one_result_each_witness :
    (processRepos [sampleDiscovered] sampleConfig [] sampleInputs (fun _ => okRepoEnv)).length = 1
    ∧ (processRepos [sampleDiscovered] sampleConfig [] sampleInputs (fun _ => okRepoEnv))[0]?
        = some (processRepo sampleDiscovered sampleConfig [] sampleInputs okRepoEnv)
    ∧ ((processRepo sampleDiscovered sampleConfig [] sampleInputs okRepoEnv).success = true
        ↔ (processRepo sampleDiscovered sampleConfig [] sampleInputs okRepoEnv).errors = []) := by
  obtain ⟨h1, h2, h3⟩ := processRepos_one_result_each [sampleDiscovered] sampleConfig []
    sampleInputs (fun _ => okRepoEnv)
  refine ⟨h1, by simpa using h2 0, h3 _ ?_⟩
  simp [processRepos, processReposAux]

/-- Flattening singleton blocks is a plain map. -/
theorem flatten_singleton_map {α β : Type} (g : α → β) (l : List α) :
    (l.map (fun a => [g a])).flatten = l.map g := by
  induction l with
  | nil => rfl
  | cons a rest ih => simp [ih]

/-- With an empty observed label list every desired label is created:
`syncOneLabel` reduces to `createLabel`. -/
theorem syncOneLabel_nil (dryRun : Bool) (env : LabelEnv) (d : LabelDefinition) :
    syncOneLabel [] dryRun env d = createLabel env d dryRun := rfl

/-- A label listing failure makes `syncLabels` behave as if the repository had
zero observed labels: every desired label is reported created, the custom
label list is empty, and outside dry-run one create call is attempted per
desired label. -/
theorem syncLabels_listFailure (desired : List LabelDefinition) (dryRun removeCustom : Bool)
    (env : LabelEnv) (e : GitHubApiError) (hl : env.listLabels = .error e) :
    (syncLabels desired dryRun removeCustom env).results
        = desired.map (fun d => ⟨d.name, .created, none⟩)
    ∧ (syncLabels desired dryRun removeCustom env).customLabels = []
    ∧ (dryRun = false → (syncLabels desired dryRun removeCustom env).calls
        = desired.map (fun d => .createL d.name)) := by
  have hcreate1 : ∀ d : LabelDefinition,
      (createLabel env d dryRun).1 = ⟨d.name, .created, none⟩ := by
    intro d; unfold createLabel; cases dryRun <;> rfl
  simp only [syncLabels, hl, customLabelsOf, List.filter_nil, List.map_nil,
    List.length_nil, gt_iff_lt, Nat.lt_irrefl, and_false, if_false,
    List.append_nil, List.map_map, List.flatten_nil]
  refine ⟨?_, ?_, ?_⟩
  · exact List.map_congr_left (fun d _ => hcreate1 d)
  · trivial
  · intro hdry
    subst hdry
    have : ∀ d : LabelDefinition,
        ((fun p => p.2.1) ∘ syncOneLabel [] false env) d = [RestMutation.createL d.name] := by
      intro d; rfl
    rw [List.map_congr_left (fun d _ => this d), flatten_singleton_map]

/-- C10: when listing a repository's labels fails, label sync proceeds as if
there were zero observed labels — every desired label is reported created
(with a create call attempted per label outside dry-run), the custom label
list is empty — and no error record reaches the repository's result, whose
success flag is unaffected by the listing failure. -/
theorem listFailure_labels_created_no_error (repo : DiscoveredRepo) (config : SilkConfig)
    (projectCache : ProjectCache) (inputs : ActionInputs) (env : RepoEnv)
    (e : GitHubApiError) (data : GitHubRepo)
    (hl : env.labels.listLabels = .error e) (hg : env.getRepo = .ok data) :
    (processRepo repo config projectCache inputs env).labels
        = config.labels.map (fun d => ⟨d.name, .created, none⟩)
    ∧ (processRepo repo config projectCache inputs env).customLabels = []
    ∧ (inputs.dryRun = false →
        (syncLabels config.labels inputs.dryRun inputs.removeCustomLabels env.labels).calls
          = config.labels.map (fun d => .createL d.name))
    ∧ (processRepo repo config projectCache inputs env).errors = []
    ∧ (processRepo repo config projectCache inputs env).success = true := by
  obtain ⟨hres, hcustom, hcalls⟩ :=
    syncLabels_listFailure config.labels inputs.dryRun inputs.removeCustomLabels
      env.labels e hl
  refine ⟨?_, ?_, hcalls, ?_, ?_⟩ <;>
    simp [processRepo, hg, hres, hcustom]

/-- Witness for C10: one desired label, a 403 on the label listing, every other
call fine. -/
theorem listFailure_labels_created_no_error_witness :
    (processRepo sampleDiscovered sampleConfig [] sampleInputs
        { okRepoEnv with labels :=
            { okLabelEnv with listLabels := .error ⟨"listLabels", none, "403 Forbidden"⟩ } }).labels
      = [⟨"bug", .created, none⟩]
    ∧ (processRepo sampleDiscovered sampleConfig [] sampleInputs
        { okRepoEnv with labels :=
            { okLabelEnv with listLabels := .error ⟨"listLabels", none, "403 Forbidden"⟩ } }).success
      = true := by
  obtain ⟨h1, _, _, _, h5⟩ := listFailure_labels_created_no_error sampleDiscovered sampleConfig
    [] sampleInputs
    { okRepoEnv with labels :=
        { okLabelEnv with listLabels := .error ⟨"listLabels", none, "403 Forbidden"⟩ } }
    ⟨"listLabels", none, "403 Forbidden"⟩ sampleRepoData rfl rfl
  exact ⟨h1, h5⟩

/-- The result component of `createLabel` is the same in and out of dry-run. -/
theorem createLabel_fst (env : LabelEnv) (d : LabelDefinition) (dryRun : Bool) :
    (createLabel env d dryRun).1 = ⟨d.name, .created, none⟩ := by
  unfold createLabel; cases dryRun <;> rfl

/-- The result component of `updateLabel` is the same in and out of dry-run. -/
theorem updateLabel_fst (env : LabelEnv) (cur : String) (d : LabelDefinition)
    (ch : List String) (dryRun : Bool) :
    (updateLabel env cur d ch dryRun).1 = ⟨d.name, .updated, some ch⟩ := by
  unfold updateLabel; cases dryRun <;> rfl

/-- The result component of `removeLabel` is the same in and out of dry-run. -/
theorem removeLabel_fst (env : LabelEnv) (n : String) (dryRun : Bool) :
    (removeLabel env n dryRun).1 = ⟨n, .removed, none⟩ := by
  unfold removeLabel; cases dryRun <;> rfl

/-- Closed form of the per-desired-label result without a case-insensitive
match: the label is created. -/
theorem syncOneLabel_fst_none (observed : List GitHubLabel) (dryRun : Bool) (env : LabelEnv)
    (d : LabelDefinition) (hfind : findExisting observed d.name = none) :
    (syncOneLabel observed dryRun env d).1 = ⟨d.name, .created, none⟩ := by
  unfold syncOneLabel
  rw [hfind]
  exact createLabel_fst env d dryRun

/-- Closed form of the per-desired-label result on the first case-insensitive
match: updated when color, description or exact casing differ, unchanged
otherwise. -/
theorem syncOneLabel_fst_found (observed : List GitHubLabel) (dryRun : Bool) (env : LabelEnv)
    (d : LabelDefinition) (l0 : GitHubLabel) (hfind : findExisting observed d.name = some l0) :
    (syncOneLabel observed dryRun env d).1
      = if jsToLower l0.color ≠ jsToLower d.color ∨ l0.description.getD "" ≠ d.description
            ∨ l0.name ≠ d.name
        then ⟨d.name, .updated, some (labelChangeList l0 d)⟩
        else ⟨d.name, .unchanged, none⟩ := by
  unfold syncOneLabel
  rw [hfind]
  by_cases hdiff : jsToLower l0.color ≠ jsToLower d.color
      ∨ l0.description.getD "" ≠ d.description ∨ l0.name ≠ d.name
  · simp only [if_pos hdiff]
    exact updateLabel_fst env l0.name d (labelChangeList l0 d) dryRun
  · simp only [if_neg hdiff]

/-- Structure of the `syncLabels` result list: the per-desired-label results in
order, followed by the custom-label removals when requested. -/
theorem syncLabels_results_eq (desiredLabels : List LabelDefinition)
    (dryRun removeCustom : Bool) (env : LabelEnv) (observed : List GitHubLabel)
    (henv : env.listLabels = .ok observed) :
    (syncLabels desiredLabels dryRun removeCustom env).results
      = desiredLabels.map (fun d => (syncOneLabel observed dryRun env d).1)
        ++ (if removeCustom ∧ (customLabelsOf observed desiredLabels).length > 0
            then (customLabelsOf observed desiredLabels).map
              (fun n => (removeLabel env n dryRun).1)
            else []) := by
  simp only [syncLabels, henv, List.map_map]
  split <;> simp [List.map_map, Function.comp_def]

/-- C3: the label diff computes exactly one operation per desired label, at
that label's position in the result list: created exactly when no observed
label matches the desired name case-insensitively; updated exactly when the
first such match differs in color (case-insensitive), description (null
read as the empty string) or exact name casing; unchanged otherwise; and
every result entry beyond the desired labels is a removal of a custom label
whose name matches no desired label. -/
theorem labelDiff_exactly_one_op (desiredLabels : List LabelDefinition)
    (observed : List GitHubLabel) (dryRun removeCustom : Bool) (env : LabelEnv)
    (henv : env.listLabels = .ok observed) :
    (∀ i : Nat, i < desiredLabels.length →
      ∃ d r, desiredLabels[i]? = some d
        ∧ (syncLabels desiredLabels dryRun removeCustom env).results[i]? = some r
        ∧ r.name = d.name
        ∧ (r.operation = .created ↔ ∀ l ∈ observed, jsToLower l.name ≠ jsToLower d.name)
        ∧ (∀ l, findExisting observed d.name = some l →
            (r.operation = .updated ↔
              (jsToLower l.color ≠ jsToLower d.color
                ∨ l.description.getD "" ≠ d.description ∨ l.name ≠ d.name)))
        ∧ (∀ l, findExisting observed d.name = some l →
            (r.operation = .unchanged ↔
              ¬(jsToLower l.color ≠ jsToLower d.color
                ∨ l.description.getD "" ≠ d.description ∨ l.name ≠ d.name))))
    ∧ (∀ j r, desiredLabels.length ≤ j →
        (syncLabels desiredLabels dryRun removeCustom env).results[j]? = some r →
          r.operation = .removed
          ∧ ∀ d ∈ desiredLabels, jsToLower r.name ≠ jsToLower d.name) := by
  have hres := syncLabels_results_eq desiredLabels dryRun removeCustom env observed henv
  constructor
  · intro i hi
    refine ⟨desiredLabels[i], (syncOneLabel observed dryRun env desiredLabels[i]).1,
      List.getElem?_eq_getElem hi, ?_, ?_⟩
    · rw [hres, List.getElem?_append_left (by simpa using hi), List.getElem?_map,
        List.getElem?_eq_getElem hi, Option.map_some']
    · set d := desiredLabels[i] with hd
      cases hfind : findExisting observed d.name with
      | none =>
        rw [syncOneLabel_fst_none observed dryRun env d hfind]
        have hfind2 := hfind
        rw [findExisting] at hfind2
        refine ⟨rfl, ?_, ?_, ?_⟩
        · refine iff_of_true rfl (fun l hl => ?_)
          have := List.find?_eq_none.mp hfind2 l hl
          simpa using this
        · intro l hl; cases hl
        · intro l hl; cases hl
      | some l0 =>
        rw [syncOneLabel_fst_found observed dryRun env d l0 hfind]
        have hfind2 := hfind
        rw [findExisting] at hfind2
        have hpred := List.find?_some hfind2
        have hmem : l0 ∈ observed := List.mem_of_find?_eq_some hfind2
        have hname : jsToLower l0.name = jsToLower d.name := by simpa using hpred
        by_cases hdiff : jsToLower l0.color ≠ jsToLower d.color
            ∨ l0.description.getD "" ≠ d.description ∨ l0.name ≠ d.name
        · rw [if_pos hdiff]
          refine ⟨rfl, ?_, ?_, ?_⟩
          · refine iff_of_false (by simp) (fun hall => hall l0 hmem hname)
          · intro l hl
            injection hl with hl
            subst hl
            exact iff_of_true rfl hdiff
          · intro l hl
            injection hl with hl
            subst hl
            exact iff_of_false (by simp) (not_not.mpr hdiff)
        · rw [if_neg hdiff]
          refine ⟨rfl, ?_, ?_, ?_⟩
          · refine iff_of_false (by simp) (fun hall => hall l0 hmem hname)
          · intro l hl
            injection hl with hl
            subst hl
            exact iff_of_false (by simp) hdiff
          · intro l hl
            injection hl with hl
            subst hl
            exact iff_of_true rfl hdiff
  · intro j r hj hget
    rw [hres, List.getElem?_append_right (by simpa using hj)] at hget
    revert hget
    split
    · intro hget
      rw [List.getElem?_map] at hget
      rcases Option.map_eq_some'.mp hget with ⟨n, hn, hrn⟩
      have hnmem : n ∈ customLabelsOf observed desiredLabels := List.getElem?_mem hn
      rw [removeLabel_fst] at hrn
      subst hrn
      refine ⟨rfl, ?_⟩
      intro d hd heq
      simp only [customLabelsOf, List.mem_map, List.mem_filter, decide_not,
        Bool.not_eq_true', decide_eq_false_iff_not] at hnmem
      rcases hnmem with ⟨l, ⟨hlmem, hnc⟩, hln⟩
      apply hnc
      have hmm : jsToLower l.name ∈ List.map (fun d => jsToLower d.name) desiredLabels :=
        List.mem_map.mpr ⟨d, hd, by rw [hln]; exact heq.symm⟩
      simpa using hmm
    · intro hget
      simp at hget

/-- Witness for C3: desired "bug" against observed "Bug" (same color and
description, different casing) yields one result at the label's position,
carrying the desired name. -/
theorem labelDiff_exactly_one_op_witness :
    ∃ d r, ([⟨"bug", "Bug report", "d73a4a"⟩] : List LabelDefinition)[0]? = some d
      ∧ (syncLabels [⟨"bug", "Bug report", "d73a4a"⟩] false false
          { okLabelEnv with
            listLabels := .ok [⟨1, "Bug", some "Bug report", "d73a4a"⟩] }).results[0]?
        = some r
      ∧ r.name = d.name := by
  obtain ⟨h1, _⟩ := labelDiff_exactly_one_op [⟨"bug", "Bug report", "d73a4a"⟩]
    [⟨1, "Bug", some "Bug report", "d73a4a"⟩] false false
    { okLabelEnv with listLabels := .ok [⟨1, "Bug", some "Bug report", "d73a4a"⟩] } rfl
  obtain ⟨d, r, hd, hr, hname, _⟩ := h1 0 (by decide)
  exact ⟨d, r, hd, hr, hname⟩

/-- C2: at a run where the create call for the desired label "bug" fails, the
failure is caught and does not block the remaining labels, but contrary to
the claim it is not recorded in the owning repository's result: the
constructed `LabelSyncError` is swallowed inside the label helper, the
label is still reported as created, the accumulated error list stays empty
and the success flag stays true. -/
theorem labelCreateFailure_not_recorded :
    (syncLabels sampleConfig.labels sampleInputs.dryRun sampleInputs.removeCustomLabels
        failingCreateEnv.labels).caught = [⟨"bug", "create", "boom"⟩]
    ∧ (syncLabels sampleConfig.labels sampleInputs.dryRun sampleInputs.removeCustomLabels
        failingCreateEnv.labels).results = [⟨"bug", .created, none⟩]
    ∧ (processRepo sampleDiscovered sampleConfig [] sampleInputs failingCreateEnv).errors = []
    ∧ (processRepo sampleDiscovered sampleConfig [] sampleInputs failingCreateEnv).success
        = true :=
  ⟨rfl, rfl, rfl, rfl⟩

/-- Membership is invariant under the JavaScript `Set` dedup. -/
theorem jsSetDedup_mem : ∀ (l : List Nat) (n : Nat), n ∈ jsSetDedup l ↔ n ∈ l := by
  intro l
  induction l with
  | nil => intro n; simp [jsSetDedup]
  | cons m rest ih =>
    intro n
    by_cases hnm : n = m
    · subst hnm
      simp [jsSetDedup]
    · simp [jsSetDedup, List.mem_filter, hnm, ih]

/-- The JavaScript `Set` dedup produces a duplicate-free list. -/
theorem jsSetDedup_nodup : ∀ l : List Nat, (jsSetDedup l).Nodup := by
  intro l
  induction l with
  | nil => simp [jsSetDedup]
  | cons m rest ih =>
    rw [jsSetDedup, List.nodup_cons]
    refine ⟨fun hmem => ?_, ih.filter _⟩
    have := (List.mem_filter.mp hmem).2
    simp at this

/-- Looking a key up in a cache built by mapping over a key list returns the
mapped entry exactly for the keys of the list. -/
theorem cacheFind_map (g : Nat → ProjectCacheEntry) (n : Nat) :
    ∀ l : List Nat, cacheFind (l.map (fun m => (m, g m))) n
      = if n ∈ l then some (g n) else none := by
  intro l
  induction l with
  | nil => simp [cacheFind]
  | cons m rest ih =>
    by_cases hmn : m = n
    · subst hmn
      simp [cacheFind, List.find?]
    · have hbeq : (m == n) = false := by simp [hmn]
      simp only [cacheFind, List.map_cons, List.find?, hbeq] at *
      rw [ih]
      have hnm : ¬ n = m := fun h => hmn h.symm
      simp [hnm]

/-- C8: each distinct project number referenced by the discovered repositories
triggers exactly one resolve call; its outcome is stored once in the cache
and read back identically for every repository referencing it; and in the
main program the cache is fully populated by `resolveProjects` before
`processRepos` starts any repository's project-linking step. -/
theorem project_cache_single_resolution (repos : List DiscoveredRepo) (config : SilkConfig)
    (inputs : ActionInputs) (resolveOutcome : Nat → Except GraphQLError ProjectInfo)
    (env : Nat → RepoEnv) (hsync : inputs.syncProjects = true) :
    (∀ n : Nat, (resolveProjects (extractProjectNumbers repos) resolveOutcome).calls.count n
        = if ∃ r ∈ repos, getProjectNumber r = some n then 1 else 0)
    ∧ (∀ n : Nat, (∃ r ∈ repos, getProjectNumber r = some n) →
        cacheFind (resolveProjects (extractProjectNumbers repos) resolveOutcome).cache n
          = some (cacheEntryOfOutcome (resolveOutcome n)))
    ∧ mainSyncPhase repos config inputs resolveOutcome env
        = processRepos repos config
            (resolveProjects (extractProjectNumbers repos) resolveOutcome).cache inputs env := by
  have hmem : ∀ n : Nat,
      n ∈ jsSetDedup (extractProjectNumbers repos) ↔ ∃ r ∈ repos, getProjectNumber r = some n := by
    intro n
    rw [jsSetDedup_mem, extractProjectNumbers, jsSetDedup_mem, List.mem_filterMap]
  refine ⟨?_, ?_, ?_⟩
  · intro n
    by_cases hn : ∃ r ∈ repos, getProjectNumber r = some n
    · rw [if_pos hn]
      exact List.count_eq_one_of_mem (jsSetDedup_nodup _) ((hmem n).mpr hn)
    · rw [if_neg hn]
      exact List.count_eq_zero.mpr (fun hmem2 => hn ((hmem n).mp hmem2))
  · intro n hn
    show cacheFind ((jsSetDedup (extractProjectNumbers repos)).map
      (fun num => (num, cacheEntryOfOutcome (resolveOutcome num)))) n = _
    rw [cacheFind_map, if_pos ((hmem n).mpr hn)]
  · simp [mainSyncPhase, hsync]

/-- Witness for C8: three repositories referencing project 7 (twice) and
project 9 (once) trigger exactly one resolve call for 7. -/
theorem project_cache_single_resolution_witness :
    (resolveProjects
        (extractProjectNumbers
          [⟨"a", "org", "org/a", "R_a", [("project-tracking", "true"), ("project-number", "7")]⟩,
           ⟨"b", "org", "org/b", "R_b", [("project-tracking", "true"), ("project-number", "7")]⟩,
           ⟨"c", "org", "org/c", "R_c", [("project-tracking", "true"), ("project-number", "9")]⟩])
        (fun n => .ok ⟨"P_id", "Board", n, false⟩)).calls.count 7 = 1 := by
  have h := (project_cache_single_resolution
    [⟨"a", "org", "org/a", "R_a", [("project-tracking", "true"), ("project-number", "7")]⟩,
     ⟨"b", "org", "org/b", "R_b", [("project-tracking", "true"), ("project-number", "7")]⟩,
     ⟨"c", "org", "org/c", "R_c", [("project-tracking", "true"), ("project-number", "9")]⟩]
    sampleConfig sampleInputs (fun n => .ok ⟨"P_id", "Board", n, false⟩)
    (fun _ => okRepoEnv) rfl).1 7
  rw [h, if_pos]
  exact ⟨⟨"a", "org", "org/a", "R_a", [("project-tracking", "true"), ("project-number", "7")]⟩,
    by simp, by decide⟩

/-- C9: the primary rate check returns the remaining quota it observed in every
case: below the hard floor of 50 it pauses for the fixed 60s after a
critical warning and still returns the observed count; between the hard
floor and the soft floor of 100 it only logs a warning; at or above 100 it
neither pauses nor warns. -/
theorem checkRestRateLimit_thresholds (clientAvailable : Bool)
    (fetchOutcome : Except GitHubApiError RateLimitInfo) (rl : RateLimitInfo)
    (hfetch : fetchOutcome = .ok rl) (havail : clientAvailable = true) :
    (checkRestRateLimit clientAvailable fetchOutcome).remaining = rl.coreRemaining
    ∧ (rl.coreRemaining < 50 →
        checkRestRateLimit clientAvailable fetchOutcome
          = ⟨rl.coreRemaining, 60000, true, false⟩)
    ∧ (50 ≤ rl.coreRemaining → rl.coreRemaining < 100 →
        checkRestRateLimit clientAvailable fetchOutcome
          = ⟨rl.coreRemaining, 0, false, true⟩)
    ∧ (100 ≤ rl.coreRemaining →
        checkRestRateLimit clientAvailable fetchOutcome
          = ⟨rl.coreRemaining, 0, false, false⟩) := by
  subst hfetch havail
  have hbase : checkRestRateLimit true (Except.ok rl)
      = (if rl.coreRemaining < 50 then ⟨rl.coreRemaining, 60000, true, false⟩
        else if rl.coreRemaining < 100 then ⟨rl.coreRemaining, 0, false, true⟩
        else ⟨rl.coreRemaining, 0, false, false⟩) := by
    simp [checkRestRateLimit, REST_PAUSE_THRESHOLD, REST_WARNING_THRESHOLD,
      REST_PAUSE_DURATION_MS]
  rw [hbase]
  refine ⟨?_, ?_, ?_, ?_⟩
  · split
    · rfl
    · split <;> rfl
  · intro h; rw [if_pos h]
  · intro h1 h2; rw [if_neg (by omega), if_pos h2]
  · intro h; rw [if_neg (by omega), if_neg (by omega)]

/-- Witness for C9 at the spec's example inputs: remaining 30 pauses for the
configured duration and still returns 30; remaining 4000 neither pauses nor
warns. -/
theorem checkRestRateLimit_thresholds_witness :
    checkRestRateLimit true (.ok ⟨30, 0, 0, 0⟩) = ⟨30, 60000, true, false⟩
    ∧ checkRestRateLimit true (.ok ⟨4000, 0, 0, 0⟩) = ⟨4000, 0, false, false⟩ :=
  ⟨(checkRestRateLimit_thresholds true (.ok ⟨30, 0, 0, 0⟩) ⟨30, 0, 0, 0⟩ rfl rfl).2.1
      (by decide),
   (checkRestRateLimit_thresholds true (.ok ⟨4000, 0, 0, 0⟩) ⟨4000, 0, 0, 0⟩ rfl rfl).2.2.2
      (by decide)⟩

/-- Every settings key is whitelisted: the `SettingKey` type enumerates exactly
the `SYNCABLE_KEYS` entries. -/
theorem mem_SYNCABLE_KEYS (k : SettingKey) : k ∈ SYNCABLE_KEYS := by
  cases k <;> decide

/-- Characterization of one apply-payload entry. -/
theorem applyEntry_eq_some (desired : RepositorySettings) (observed : GitHubRepo)
    (a k : SettingKey) (v : SettingValue) :
    applyEntry desired observed a = some (k, v)
      ↔ a = k ∧ desired.get k = some v ∧ observed.get k ≠ v := by
  unfold applyEntry
  cases hget : desired.get a with
  | none =>
    simp only [reduceCtorEq, false_iff, not_and]
    rintro rfl h
    rw [hget] at h
    cases h
  | some dv =>
    simp only
    by_cases hne : observed.get a ≠ dv
    · rw [if_pos hne]
      constructor
      · intro h
        injection h with h
        obtain ⟨rfl, rfl⟩ := Prod.mk.injEq .. ▸ And.intro (congrArg Prod.fst h) (congrArg Prod.snd h)
        exact ⟨rfl, hget, hne⟩
      · rintro ⟨rfl, hg, _⟩
        rw [hget] at hg
        injection hg with hg
        rw [hg]
    · rw [if_neg hne]
      simp only [reduceCtorEq, false_iff, not_and]
      rintro rfl hg
      rw [hget] at hg
      injection hg with hg
      subst hg
      intro hcon
      exact hcon (not_not.mp hne)

/-- Characterization of one change-list entry. -/
theorem changeEntry_eq_some (desired : RepositorySettings) (observed : GitHubRepo)
    (a : SettingKey) (c : SettingChange) :
    changeEntry desired observed a = some c
      ↔ a = c.key ∧ desired.get c.key = some c.tov ∧ c.frm = observed.get c.key
        ∧ observed.get c.key ≠ c.tov := by
  unfold changeEntry
  cases hget : desired.get a with
  | none =>
    simp only [reduceCtorEq, false_iff, not_and]
    rintro rfl h
    rw [hget] at h
    cases h
  | some dv =>
    simp only
    by_cases hne : observed.get a ≠ dv
    · rw [if_pos hne]
      constructor
      · intro h
        injection h with h
        subst h
        exact ⟨rfl, hget, rfl, hne⟩
      · rintro ⟨rfl, hg, hfrm, _⟩
        rw [hget] at hg
        injection hg with hg
        subst hg
        cases c
        simp_all
    · rw [if_neg hne]
      simp only [reduceCtorEq, false_iff, not_and]
      rintro rfl hg
      rw [hget] at hg
      injection hg with hg
      subst hg
      intro _ hcon
      exact hcon (not_not.mp hne)

/-- C5: the settings diff and the apply payload contain exactly the whitelisted
keys whose desired value is defined and differs from the observed value; a
key absent from the desired config never appears in either; and for desired
has_wiki=false, has_issues=true against an observed repository with
has_wiki=true, has_issues=true, has_projects=true the payload is exactly
the single has_wiki=false entry. -/
theorem settings_diff_minimal :
    (∀ (desired : RepositorySettings) (observed : GitHubRepo)
        (k : SettingKey) (v : SettingValue),
      (k, v) ∈ settingsToApply desired observed
        ↔ k ∈ SYNCABLE_KEYS ∧ desired.get k = some v ∧ observed.get k ≠ v)
    ∧ (∀ (desired : RepositorySettings) (observed : GitHubRepo) (k : SettingKey),
        desired.get k = none →
          (∀ v, (k, v) ∉ settingsToApply desired observed)
          ∧ ∀ c ∈ computeSettingChanges desired observed, c.key ≠ k)
    ∧ settingsToApply
        { RepositorySettings.empty with has_wiki := some false, has_issues := some true }
        ⟨"R_1", "r", "o/r", "o", true, true, true, false, true, true, "PR_TITLE",
          "PR_BODY", true, false, false, false, false⟩
      = [(.has_wiki, .b false)] := by
  have hmem : ∀ (desired : RepositorySettings) (observed : GitHubRepo)
      (k : SettingKey) (v : SettingValue),
      (k, v) ∈ settingsToApply desired observed
        ↔ k ∈ SYNCABLE_KEYS ∧ desired.get k = some v ∧ observed.get k ≠ v := by
    intro desired observed k v
    unfold settingsToApply
    rw [List.mem_filterMap]
    constructor
    · rintro ⟨a, _, hfa⟩
      obtain ⟨rfl, hg, hne⟩ := (applyEntry_eq_some desired observed a k v).mp hfa
      exact ⟨mem_SYNCABLE_KEYS _, hg, hne⟩
    · rintro ⟨_, hg, hne⟩
      exact ⟨k, mem_SYNCABLE_KEYS _,
        (applyEntry_eq_some desired observed k k v).mpr ⟨rfl, hg, hne⟩⟩
  refine ⟨hmem, ?_, by decide⟩
  intro desired observed k hnone
  constructor
  · intro v hv
    obtain ⟨_, hg, _⟩ := (hmem desired observed k v).mp hv
    rw [hnone] at hg
    cases hg
  · intro c hc hkey
    unfold computeSettingChanges at hc
    rcases List.mem_filterMap.mp hc with ⟨a, _, hfa⟩
    obtain ⟨rfl, hg, _, _⟩ := (changeEntry_eq_some desired observed a c).mp hfa
    rw [hkey, hnone] at hg
    cases hg

/-- Witness for C5: instantiates the universally quantified parts at the
spec's concrete example. -/
theorem settings_diff_minimal_witness :
    ((SettingKey.has_wiki, SettingValue.b false) ∈ settingsToApply
        { RepositorySettings.empty with has_wiki := some false, has_issues := some true }
        ⟨"R_1", "r", "o/r", "o", true, true, true, false, true, true, "PR_TITLE",
          "PR_BODY", true, false, false, false, false⟩)
    ∧ ∀ v, (SettingKey.has_projects, v) ∉ settingsToApply
        { RepositorySettings.empty with has_wiki := some false, has_issues := some true }
        ⟨"R_1", "r", "o/r", "o", true, true, true, false, true, true, "PR_TITLE",
          "PR_BODY", true, false, false, false, false⟩ :=
  ⟨(settings_diff_minimal.1 _ _ _ _).mpr ⟨by decide, by decide, by decide⟩,
   (settings_diff_minimal.2.1 _ _ SettingKey.has_projects (by decide)).1⟩

/-- C6: `syncSettings` never fails: an empty diff returns `applied = true` with
no changes and no update call; a non-empty diff in dry-run skips the update
call and returns the changes with `applied = false`; a rejected or
otherwise failed update call still returns the detected changes with
`applied = false` instead of escalating an error. -/
theorem syncSettings_never_fails (desired : RepositorySettings) (currentRepo : GitHubRepo)
    (dryRun : Bool) (outcome : Except GitHubApiError Unit) :
    (computeSettingChanges desired currentRepo = [] →
      syncSettings desired currentRepo dryRun outcome
        = ⟨[], true, []⟩)
    ∧ (computeSettingChanges desired currentRepo ≠ [] → dryRun = true →
      syncSettings desired currentRepo dryRun outcome
        = ⟨computeSettingChanges desired currentRepo, false, []⟩)
    ∧ (∀ e, computeSettingChanges desired currentRepo ≠ [] → dryRun = false →
        outcome = .error e →
      syncSettings desired currentRepo dryRun outcome
        = ⟨computeSettingChanges desired currentRepo, false,
            [settingsToApply desired currentRepo]⟩) := by
  refine ⟨?_, ?_, ?_⟩
  · intro h
    simp [syncSettings, h]
  · intro h hdry
    subst hdry
    simp [syncSettings, List.length_eq_zero.not.mpr h]
  · intro e h hdry hout
    subst hdry hout
    simp [syncSettings, List.length_eq_zero.not.mpr h]

/-- Witness for C6: the three behaviors at concrete inputs — matching settings,
a dry-run drift, and a drift whose update call fails with a 422. -/
theorem syncSettings_never_fails_witness :
    syncSettings { RepositorySettings.empty with has_wiki := some true }
        ⟨"R_1", "r", "o/r", "o", true, true, true, false, true, true, "PR_TITLE",
          "PR_BODY", true, false, false, false, false⟩ false (.ok ()) = ⟨[], true, []⟩
    ∧ syncSettings { RepositorySettings.empty with has_wiki := some false }
        ⟨"R_1", "r", "o/r", "o", true, true, true, false, true, true, "PR_TITLE",
          "PR_BODY", true, false, false, false, false⟩ true (.ok ())
        = ⟨[⟨.has_wiki, .b true, .b false⟩], false, []⟩
    ∧ syncSettings { RepositorySettings.empty with has_wiki := some false }
        ⟨"R_1", "r", "o/r", "o", true, true, true, false, true, true, "PR_TITLE",
          "PR_BODY", true, false, false, false, false⟩ false
          (.error ⟨"updateRepo", some 422, "rejected"⟩)
        = ⟨[⟨.has_wiki, .b true, .b false⟩], false, [[(.has_wiki, .b false)]]⟩ := by
  refine ⟨?_, ?_, ?_⟩
  · exact (syncSettings_never_fails _ _ false (.ok ())).1 (by decide)
  · have h := (syncSettings_never_fails
      { RepositorySettings.empty with has_wiki := some false }
      ⟨"R_1", "r", "o/r", "o", true, true, true, false, true, true, "PR_TITLE",
        "PR_BODY", true, false, false, false, false⟩ true (.ok ())).2.1
      (by decide) rfl
    rw [h]; decide
  · have h := (syncSettings_never_fails
      { RepositorySettings.empty with has_wiki := some false }
      ⟨"R_1", "r", "o/r", "o", true, true, true, false, true, true, "PR_TITLE",
        "PR_BODY", true, false, false, false, false⟩ false
      (.error ⟨"updateRepo", some 422, "rejected"⟩)).2.2
      ⟨"updateRepo", some 422, "rejected"⟩ (by decide) rfl rfl
    rw [h]; decide

/-- A predicate with a unique satisfying element finds exactly it. -/
theorem find?_eq_some_of_unique {α : Type} (p : α → Bool) (a : α) :
    ∀ l : List α, a ∈ l → p a = true → (∀ b ∈ l, p b = true → b = a) →
      l.find? p = some a := by
  intro l
  induction l with
  | nil => intro h; cases h
  | cons b rest ih =>
    intro hmem hpa huniq
    rcases List.mem_cons.mp hmem with rfl | hmem2
    · rw [List.find?_cons_of_pos _ hpa]
    · by_cases hpb : p b = true
      · rw [List.find?_cons_of_pos _ hpb, huniq b (List.mem_cons_self b rest) hpb]
      · rw [List.find?_cons_of_neg _ hpb]
        exact ih hmem2 hpa (fun c hc hpc => huniq c (List.mem_cons_of_mem b hc) hpc)

/-- A successful `find?` splits its list at the found element, with every
earlier element failing the predicate. -/
theorem find?_decomp {α : Type} (p : α → Bool) (a : α) :
    ∀ l : List α, l.find? p = some a →
      ∃ l1 l2, l = l1 ++ a :: l2 ∧ ∀ x ∈ l1, p x = false := by
  intro l
  induction l with
  | nil => intro h; cases h
  | cons b rest ih =>
    intro hfind
    by_cases hpb : p b = true
    · rw [List.find?_cons_of_pos _ hpb] at hfind
      injection hfind with hfind
      subst hfind
      exact ⟨[], rest, rfl, fun x hx => absurd hx (List.not_mem_nil x)⟩
    · rw [List.find?_cons_of_neg _ hpb] at hfind
      obtain ⟨l1, l2, hsplit, hfail⟩ := ih hfind
      refine ⟨b :: l1, l2, by rw [hsplit, List.cons_append], ?_⟩
      intro x hx
      rcases List.mem_cons.mp hx with rfl | hx2
      · exact Bool.not_eq_true _ ▸ hpb
      · exact hfail x hx2

/-- Applying the diff preserves each surviving label's lowercased name. -/
theorem applyOne_name (existingLabels : List GitHubLabel)
    (desiredLabels : List LabelDefinition) (removeCustom : Bool) (l out : GitHubLabel)
    (h : applyOne existingLabels desiredLabels removeCustom l = some out) :
    jsToLower out.name = jsToLower l.name := by
  unfold applyOne at h
  cases htarget : targetOf existingLabels desiredLabels l with
  | some d =>
    simp only [htarget] at h
    injection h with h
    subst h
    rw [targetOf] at htarget
    have hp := List.find?_some
      (p := fun d2 : LabelDefinition => decide (findExisting existingLabels d2.name = some l))
      htarget
    have hfind := of_decide_eq_true hp
    rw [findExisting] at hfind
    have hb := List.find?_some
      (p := fun l2 : GitHubLabel => jsToLower l2.name == jsToLower d.name) hfind
    exact (eq_of_beq hb).symm
  | none =>
    simp only [htarget] at h
    split at h
    · cases h
    · injection h with h; subst h; rfl

/-- With custom removal on, every label surviving the apply step has a
desired lowercased name. -/
theorem applyOne_in_desired (existingLabels : List GitHubLabel)
    (desiredLabels : List LabelDefinition) (l out : GitHubLabel)
    (h : applyOne existingLabels desiredLabels true l = some out) :
    jsToLower out.name ∈ desiredLabels.map (fun d => jsToLower d.name) := by
  unfold applyOne at h
  cases htarget : targetOf existingLabels desiredLabels l with
  | some d =>
    simp only [htarget] at h
    injection h with h
    subst h
    rw [targetOf] at htarget
    exact List.mem_map.mpr ⟨d, List.mem_of_find?_eq_some htarget, rfl⟩
  | none =>
    simp only [htarget] at h
    split at h
    · cases h
    · injection h with h
      subst h
      rename_i hcond
      have hc : (desiredLabels.map (fun d => jsToLower d.name)).contains
          (jsToLower l.name) = true := by
        by_contra hnc
        exact hcond ⟨by simp, hnc⟩
      simpa using hc

/-- After applying the diff, the case-insensitive lookup of every desired
label finds a label carrying exactly its desired fields. -/
theorem findExisting_applyLabelDiff (desiredLabels : List LabelDefinition)
    (observed : List GitHubLabel) (removeCustom : Bool)
    (hnodup : (desiredLabels.map (fun d => jsToLower d.name)).Nodup)
    (d : LabelDefinition) (hd : d ∈ desiredLabels) :
    ∃ id : Nat, findExisting (applyLabelDiff observed desiredLabels removeCustom) d.name
      = some (labelOfDef d id) := by
  set ψ := applyOne observed desiredLabels removeCustom with hψ
  cases hfind : findExisting observed d.name with
  | some l0 =>
    refine ⟨l0.id, ?_⟩
    have hfind2 := hfind
    rw [findExisting] at hfind2
    have hb0 := List.find?_some
      (p := fun l2 : GitHubLabel => jsToLower l2.name == jsToLower d.name) hfind2
    have hname0 : jsToLower l0.name = jsToLower d.name := eq_of_beq hb0
    have htarget : targetOf observed desiredLabels l0 = some d := by
      refine find?_eq_some_of_unique _ d desiredLabels hd (decide_eq_true hfind) ?_
      intro b hb hpb
      have hpb2 : decide (findExisting observed b.name = some l0) = true := hpb
      have hfb := of_decide_eq_true hpb2
      rw [findExisting] at hfb
      have hbb := List.find?_some
        (p := fun l2 : GitHubLabel => jsToLower l2.name == jsToLower b.name) hfb
      have hnameb : jsToLower l0.name = jsToLower b.name := eq_of_beq hbb
      exact List.inj_on_of_nodup_map hnodup hb hd (by rw [← hnameb, hname0])
    obtain ⟨pre, post, hsplit, hfail⟩ := find?_decomp _ _ observed hfind2
    rw [findExisting, applyLabelDiff, ← hψ, List.find?_append]
    have hpart1 : (observed.filterMap ψ).find?
        (fun l => jsToLower l.name == jsToLower d.name) = some (labelOfDef d l0.id) := by
      rw [hsplit, List.filterMap_append, List.find?_append]
      have hpre : (pre.filterMap ψ).find?
          (fun l => jsToLower l.name == jsToLower d.name) = none := by
        rw [List.find?_eq_none]
        intro x hx
        rcases List.mem_filterMap.mp hx with ⟨l, hl, hout⟩
        have := applyOne_name observed desiredLabels removeCustom l x hout
        simp only [this]
        simpa using hfail l hl
      rw [hpre, Option.none_or]
      have hl0 : ψ l0 = some (labelOfDef d l0.id) := by
        rw [hψ]
        unfold applyOne
        simp only [htarget]
      simp only [List.filterMap_cons, hl0]
      rw [List.find?_cons_of_pos _ (by simp [labelOfDef])]
    rw [hpart1]
    rfl
  | none =>
    refine ⟨0, ?_⟩
    have hfind2 := hfind
    rw [findExisting] at hfind2
    rw [findExisting, applyLabelDiff, ← hψ, List.find?_append]
    have hpart1 : (observed.filterMap ψ).find?
        (fun l => jsToLower l.name == jsToLower d.name) = none := by
      rw [List.find?_eq_none]
      intro x hx
      rcases List.mem_filterMap.mp hx with ⟨l, hl, hout⟩
      have hxl := applyOne_name observed desiredLabels removeCustom l x hout
      simp only [hxl]
      simpa using List.find?_eq_none.mp hfind2 l hl
    rw [hpart1, Option.none_or]
    refine find?_eq_some_of_unique _ (labelOfDef d 0) _ ?_ (by simp [labelOfDef]) ?_
    · refine List.mem_map.mpr ⟨d, List.mem_filter.mpr ⟨hd, ?_⟩, rfl⟩
      rw [hfind]
      rfl
    · intro b hb hpb
      rcases List.mem_map.mp hb with ⟨d2, hd2, hbd2⟩
      subst hbd2
      have hd2mem := (List.mem_filter.mp hd2).1
      have : jsToLower d2.name = jsToLower d.name := by
        simpa [labelOfDef] using hpb
      rw [List.inj_on_of_nodup_map hnodup hd2mem hd this]

/-- With custom removal on, re-listing after the apply step reports no custom
labels. -/
theorem customLabelsOf_applyLabelDiff (desiredLabels : List LabelDefinition)
    (observed : List GitHubLabel) :
    customLabelsOf (applyLabelDiff observed desiredLabels true) desiredLabels = [] := by
  unfold customLabelsOf
  rw [List.map_eq_nil_iff, List.filter_eq_nil_iff]
  intro l hl
  simp only [decide_not, Bool.not_eq_true', decide_eq_false_iff_not, not_not]
  rcases List.mem_append.mp hl with h1 | h2
  · rcases List.mem_filterMap.mp h1 with ⟨x, _, hout⟩
    have := applyOne_in_desired observed desiredLabels x l hout
    simpa using this
  · rcases List.mem_map.mp h2 with ⟨d2, hd2, hld⟩
    subst hld
    have : jsToLower d2.name ∈ desiredLabels.map (fun d => jsToLower d.name) :=
      List.mem_map.mpr ⟨d2, (List.mem_filter.mp hd2).1, rfl⟩
    simpa [labelOfDef] using this

/-- C4 counterexample: for the desired label set {"Bug", "bug"} (two labels
collapsing to the same lowercased name) over an empty observed state,
applying the computed diff and re-diffing yields an update operation, not
zero operations. -/
theorem labelDiff_idempotence_cex :
    ((syncLabels [⟨"Bug", "", "aaaaaa"⟩, ⟨"bug", "x", "aaaaaa"⟩] false false
        ⟨.ok (applyLabelDiff [] [⟨"Bug", "", "aaaaaa"⟩, ⟨"bug", "x", "aaaaaa"⟩] false),
          fun _ => .ok (), fun _ _ => .ok (), fun _ => .ok ()⟩).results.map
      (fun r => r.operation))
      = [.unchanged, .updated] := by decide

/-- C4 (amended with the spec's own config precondition): provided no two
desired labels collapse to the same lowercased name, applying the computed
label diff once and re-diffing the resulting observed state against the
same desired labels yields only `unchanged` operations — zero create,
update and remove operations. -/
theorem labelDiff_idempotent (desiredLabels : List LabelDefinition)
    (observed : List GitHubLabel) (removeCustom dryRun2 : Bool) (env : LabelEnv)
    (hnodup : (desiredLabels.map (fun d => jsToLower d.name)).Nodup)
    (henv : env.listLabels = .ok (applyLabelDiff observed desiredLabels removeCustom)) :
    ∀ r ∈ (syncLabels desiredLabels dryRun2 removeCustom env).results,
      r.operation = .unchanged := by
  rw [syncLabels_results_eq desiredLabels dryRun2 removeCustom env _ henv]
  intro r hr
  rcases List.mem_append.mp hr with hr1 | hr2
  · rcases List.mem_map.mp hr1 with ⟨d, hd, hrd⟩
    obtain ⟨id, hfind⟩ :=
      findExisting_applyLabelDiff desiredLabels observed removeCustom hnodup d hd
    rw [← hrd, syncOneLabel_fst_found _ _ _ _ _ hfind, if_neg (by simp [labelOfDef])]
  · exfalso
    revert hr2
    split
    · rename_i hcond
      intro hr2
      have hrc : removeCustom = true := hcond.1
      subst hrc
      rw [customLabelsOf_applyLabelDiff desiredLabels observed] at hcond
      simpa using hcond.2
    · intro hr2
      simp at hr2

/-- Witness for C4 at a concrete input: one desired label against an observed
label differing in casing, description and color; after applying the diff,
the re-diff reports everything unchanged. -/
theorem labelDiff_idempotent_witness :
    ((syncLabels [⟨"bug", "Bug report", "d73a4a"⟩] false true
        ⟨.ok (applyLabelDiff [⟨1, "Bug", some "old", "000000"⟩]
            [⟨"bug", "Bug report", "d73a4a"⟩] true),
          fun _ => .ok (), fun _ _ => .ok (), fun _ => .ok ()⟩).results.all
      (fun r => r.operation == .unchanged)) = true := by
  rw [List.all_eq_true]
  intro r hr
  have h := labelDiff_idempotent [⟨"bug", "Bug report", "d73a4a"⟩]
    [⟨1, "Bug", some "old", "000000"⟩] true false
    ⟨.ok (applyLabelDiff [⟨1, "Bug", some "old", "000000"⟩]
        [⟨"bug", "Bug report", "d73a4a"⟩] true),
      fun _ => .ok (), fun _ _ => .ok (), fun _ => .ok ()⟩
    (by decide) rfl r hr
  simp [h]

/-- `find?` only depends on the pointwise behavior of its predicate. -/
theorem find?_ext {α : Type} (p q : α → Bool) (h : ∀ a, p a = q a) :
    ∀ l : List α, l.find? p = l.find? q := by
  intro l
  induction l with
  | nil => rfl
  | cons a rest ih =>
    rw [List.find?_cons, List.find?_cons, h a]
    cases q a <;> simp [ih]

/-- Inserting under a fresh key appends the binding. -/
theorem mapSet_of_not_mem (m : List (String × DiscoveredRepo)) (k : String)
    (v : DiscoveredRepo) (h : mapGet m k = none) :
    mapSet m k v = m ++ [(k, v)] := by
  unfold mapSet
  rw [if_neg]
  intro hany
  rcases List.any_eq_true.mp hany with ⟨p, hp, hpk⟩
  have := List.find?_eq_none.mp h p hp
  exact this hpk

/-- Folding `mergeStep` over entries with other keys leaves a binding
untouched. -/
theorem mergeStep_mapGet_other (m : List (String × DiscoveredRepo))
    (repo : DiscoveredRepo) (k : String) (hne : repoKey repo ≠ k) :
    mapGet (mergeStep m repo) k = mapGet m k := by
  have hstep : ∀ v : DiscoveredRepo, mapGet (mapSet m (repoKey repo) v) k = mapGet m k := by
    intro v
    unfold mapSet
    split
    · unfold mapGet
      rw [List.find?_map]
      rw [find?_ext ((fun p => p.1 == k) ∘ fun p =>
          if p.1 == repoKey repo then (repoKey repo, v) else p) (fun p => p.1 == k) ?hext m]
      case hext =>
        intro p
        by_cases hp : (p.1 == repoKey repo) = true
        · have hp2 : p.1 = repoKey repo := eq_of_beq hp
          simp [Function.comp, hp2, beq_eq_false_iff_ne.mpr hne]
        · have hp2 : ¬ p.1 = repoKey repo := fun hcon => hp (beq_iff_eq.mpr hcon)
          simp [Function.comp, hp2]
      cases hfk : m.find? (fun p => p.1 == k) with
      | none => rfl
      | some q =>
        have hqb := List.find?_some (p := fun p : String × DiscoveredRepo => p.1 == k) hfk
        have hq : q.1 = k := eq_of_beq hqb
        have hnotrep : ¬ q.1 = repoKey repo := by
          rw [hq]
          exact fun hcon => hne hcon.symm
        simp [Option.map_some', hnotrep]
    · unfold mapGet
      rw [List.find?_append]
      cases hfk : m.find? (fun p => p.1 == k) with
      | some q => rfl
      | none =>
        have : ((repoKey repo, v).1 == k) = false := beq_eq_false_iff_ne.mpr hne
        simp [List.find?_cons, this]
  unfold mergeStep
  cases hfind : mapGet m (repoKey repo) with
  | none =>
    rw [show List.find? (fun p => p.1 == jsToLower repo.fullName) m = none from hfind]
    exact hstep repo
  | some pair =>
    rw [show List.find? (fun p => p.1 == jsToLower repo.fullName) m = some pair from hfind]
    exact hstep _

/-- Merging an explicit entry whose key is already bound replaces the binding
with the explicit record carrying the spread attribute maps. -/
theorem mergeStep_mapGet_same (m : List (String × DiscoveredRepo))
    (repo : DiscoveredRepo) (pair : String × DiscoveredRepo)
    (hfind : mapGet m (repoKey repo) = some pair) :
    mapGet (mergeStep m repo) (repoKey repo)
      = some (repoKey repo,
          { repo with customProperties :=
              jsObjSpread repo.customProperties pair.2.customProperties }) := by
  unfold mergeStep
  rw [show List.find? (fun p => p.1 == jsToLower repo.fullName) m = some pair from hfind]
  set v : DiscoveredRepo :=
    { repo with customProperties :=
        jsObjSpread repo.customProperties pair.2.customProperties } with hv
  have hpb := List.find?_some
    (p := fun p : String × DiscoveredRepo => p.1 == repoKey repo) hfind
  have hpmem := List.mem_of_find?_eq_some
    (p := fun p : String × DiscoveredRepo => p.1 == repoKey repo) hfind
  show mapGet (mapSet m (jsToLower repo.fullName) v) (repoKey repo) = _
  unfold mapSet
  rw [if_pos (List.any_eq_true.mpr ⟨pair, hpmem, hpb⟩)]
  unfold mapGet
  rw [List.find?_map]
  rw [find?_ext ((fun p => p.1 == repoKey repo) ∘ fun p =>
      if p.1 == jsToLower repo.fullName then (jsToLower repo.fullName, v) else p)
    (fun p => p.1 == repoKey repo) ?hext m]
  case hext =>
    intro p
    by_cases hp : (p.1 == repoKey repo) = true
    · have hp2 : p.1 = repoKey repo := eq_of_beq hp
      simp [Function.comp, hp2, repoKey]
    · have hp2 : ¬ p.1 = repoKey repo := fun hcon => hp (beq_iff_eq.mpr hcon)
      have hp3 : ¬ p.1 = jsToLower repo.fullName := hp2
      simp [Function.comp, hp2, hp3]
  rw [show List.find? (fun p => p.1 == repoKey repo) m = some pair from hfind]
  have hp1 : pair.1 = repoKey repo := eq_of_beq hpb
  simp [Option.map_some', hp1, repoKey]

/-- Folding `mergeStep` over a run of entries with other keys leaves a binding
untouched. -/
theorem foldl_mergeStep_mapGet_other (k : String) :
    ∀ (es : List DiscoveredRepo) (m : List (String × DiscoveredRepo)),
      (∀ r ∈ es, repoKey r ≠ k) →
      mapGet (es.foldl mergeStep m) k = mapGet m k := by
  intro es
  induction es with
  | nil => intro m _; rfl
  | cons r rest ih =>
    intro m hne
    rw [List.foldl_cons, ih (mergeStep m r)
      (fun x hx => hne x (List.mem_cons_of_mem r hx)),
      mergeStep_mapGet_other m r k (hne r (List.mem_cons_self r rest))]

/-- Spreading into an empty object yields the other object unchanged: explicit
discovery entries carry empty attribute maps, so the org map wins whole. -/
theorem jsObjSpread_nil (b : List (String × String)) : jsObjSpread [] b = b := by
  simp [jsObjSpread]

/-- Folding fresh-keyed insertions appends the bindings in order. -/
theorem foldl_mapSet_append (rs : List DiscoveredRepo) :
    ∀ acc : List (String × DiscoveredRepo),
      (∀ r ∈ rs, ∀ p ∈ acc, p.1 ≠ jsToLower r.fullName) →
      (rs.map (fun r => jsToLower r.fullName)).Nodup →
      rs.foldl (fun m r => mapSet m (jsToLower r.fullName) r) acc
        = acc ++ rs.map (fun r => (jsToLower r.fullName, r)) := by
  induction rs with
  | nil => intro acc _ _; simp
  | cons r rest ih =>
    intro acc hdisj hnodup
    rw [List.foldl_cons]
    have hnone : mapGet acc (jsToLower r.fullName) = none := by
      unfold mapGet
      rw [List.find?_eq_none]
      intro p hp hcon
      exact hdisj r (List.mem_cons_self r rest) p hp (eq_of_beq hcon)
    rw [mapSet_of_not_mem acc _ r hnone]
    rw [List.map_cons] at hnodup
    have hnodup2 := List.nodup_cons.mp hnodup
    rw [ih (acc ++ [(jsToLower r.fullName, r)]) ?hdisj2 hnodup2.2]
    · simp
    case hdisj2 =>
      intro r2 hr2 p hp
      rcases List.mem_append.mp hp with h1 | h2
      · exact hdisj r2 (List.mem_cons_of_mem r hr2) p h1
      · have hpr : p = (jsToLower r.fullName, r) := by simpa using h2
        subst hpr
        intro hcon
        have hcon2 : jsToLower r.fullName = jsToLower r2.fullName := hcon
        refine hnodup2.1 ?_
        rw [hcon2]
        exact List.mem_map.mpr ⟨r2, hr2, rfl⟩

/-- In the org-phase map, every org repository's key is bound to it. -/
theorem mapGet_m1 (orgRepos : List DiscoveredRepo) (o : DiscoveredRepo)
    (hnodup : (orgRepos.map (fun r => jsToLower r.fullName)).Nodup) (ho : o ∈ orgRepos) :
    mapGet (orgRepos.foldl (fun m r => mapSet m (jsToLower r.fullName) r) [])
      (jsToLower o.fullName) = some (jsToLower o.fullName, o) := by
  rw [foldl_mapSet_append orgRepos [] (by simp) hnodup, List.nil_append]
  refine find?_eq_some_of_unique _ _ _ (List.mem_map.mpr ⟨o, ho, rfl⟩) (by simp) ?_
  intro b hb hpb
  rcases List.mem_map.mp hb with ⟨r, hr, hbr⟩
  subst hbr
  have hkeq : jsToLower r.fullName = jsToLower o.fullName := eq_of_beq hpb
  rw [List.inj_on_of_nodup_map hnodup hr ho hkeq]

/-- One merge step preserves the structural invariant. -/
theorem mergeStep_inv (m : List (String × DiscoveredRepo)) (repo : DiscoveredRepo)
    (hinv : mergedInv m) : mergedInv (mergeStep m repo) := by
  have hreplace : ∀ v : DiscoveredRepo, jsToLower v.fullName = jsToLower repo.fullName →
      (m.any fun p => p.1 == jsToLower repo.fullName) = true →
      mergedInv (mapSet m (jsToLower repo.fullName) v) := by
    intro v hv hany
    unfold mapSet
    rw [if_pos hany]
    constructor
    · have hkeys : (m.map (fun p =>
          if p.1 == jsToLower repo.fullName then (jsToLower repo.fullName, v) else p)).map
            (fun p => p.1) = m.map (fun p => p.1) := by
        rw [List.map_map]
        refine List.map_congr_left ?_
        intro p _
        by_cases hp : (p.1 == jsToLower repo.fullName) = true
        · simp [Function.comp, eq_of_beq hp]
        · have hp2 : ¬ p.1 = jsToLower repo.fullName := fun hcon => hp (beq_iff_eq.mpr hcon)
          simp [Function.comp, hp2]
      rw [hkeys]
      exact hinv.1
    · intro p hp
      rcases List.mem_map.mp hp with ⟨q, hq, hqp⟩
      by_cases hqk : (q.1 == jsToLower repo.fullName) = true
      · rw [if_pos hqk] at hqp
        rw [← hqp]
        exact hv
      · rw [if_neg hqk] at hqp
        rw [← hqp]
        exact hinv.2 q hq
  unfold mergeStep
  cases hfind : List.find? (fun p => p.1 == jsToLower repo.fullName) m with
  | none =>
    rw [mapSet_of_not_mem m _ repo hfind]
    constructor
    · rw [List.map_append]
      refine List.Nodup.append hinv.1 (List.nodup_singleton _) ?_
      intro a ha hb
      rcases List.mem_map.mp ha with ⟨p, hp, hpa⟩
      have hax : a = jsToLower repo.fullName := by simpa using hb
      subst hax
      exact List.find?_eq_none.mp hfind p hp (by rw [hpa]; simp)
    · intro p hp
      rcases List.mem_append.mp hp with h1 | h2
      · exact hinv.2 p h1
      · have hpr : p = (jsToLower repo.fullName, repo) := by simpa using h2
        subst hpr
        rfl
  | some pair =>
    exact hreplace _ rfl
      (List.any_eq_true.mpr ⟨pair, List.mem_of_find?_eq_some hfind,
        List.find?_some
          (p := fun p : String × DiscoveredRepo => p.1 == jsToLower repo.fullName) hfind⟩)

/-- Folding merge steps preserves the structural invariant. -/
theorem foldl_mergeStep_inv :
    ∀ (es : List DiscoveredRepo) (m : List (String × DiscoveredRepo)),
      mergedInv m → mergedInv (es.foldl mergeStep m) := by
  intro es
  induction es with
  | nil => intro m h; exact h
  | cons r rest ih =>
    intro m h
    rw [List.foldl_cons]
    exact ih (mergeStep m r) (mergeStep_inv m r h)

/-- With duplicate-free keys, the bound key occurs exactly once among the
bindings. -/
theorem filter_length_one_of_nodup (k : String) :
    ∀ (m : List (String × DiscoveredRepo)),
      (m.map (fun p => p.1)).Nodup →
      (mapGet m k).isSome → (m.filter (fun p => p.1 == k)).length = 1 := by
  intro m
  induction m with
  | nil => intro _ hfind; cases hfind
  | cons p rest ih =>
    intro hnodup hfind
    rw [List.map_cons] at hnodup
    have hnodup2 := List.nodup_cons.mp hnodup
    by_cases hp : (p.1 == k) = true
    · rw [List.filter_cons_of_pos (p := fun q : String × DiscoveredRepo => q.1 == k) hp]
      have hrest : rest.filter (fun q => q.1 == k) = [] := by
        rw [List.filter_eq_nil_iff]
        intro q hq hqk
        apply hnodup2.1
        rw [eq_of_beq hp, ← eq_of_beq hqk]
        exact List.mem_map.mpr ⟨q, hq, rfl⟩
      rw [hrest]
      rfl
    · rw [List.filter_cons_of_neg (p := fun q : String × DiscoveredRepo => q.1 == k) hp]
      apply ih hnodup2.2
      unfold mapGet at hfind ⊢
      rwa [List.find?_cons_of_neg
        (p := fun q : String × DiscoveredRepo => q.1 == k) rest hp] at hfind

/-- C7: discovery merges the attribute-filtered and explicit-list results as a
union deduplicated by full name case-insensitively: a repository found by
both modes yields exactly one merged entry, its attribute map is the
attribute-filtered entry's (explicit entries carry empty maps), and its
record identity fields (node id) are unaffected. -/
theorem discovery_merge_dedup (orgRepos explicitRepos : List DiscoveredRepo)
    (o e : DiscoveredRepo)
    (horg : (orgRepos.map (fun r => jsToLower r.fullName)).Nodup)
    (hexp : (explicitRepos.map (fun r => jsToLower r.fullName)).Nodup)
    (ho : o ∈ orgRepos) (he : e ∈ explicitRepos)
    (hkey : jsToLower e.fullName = jsToLower o.fullName)
    (hprops : e.customProperties = []) :
    ((discoverReposMerge orgRepos explicitRepos).filter
        (fun r => jsToLower r.fullName == jsToLower o.fullName)).length = 1
    ∧ ∃ r ∈ discoverReposMerge orgRepos explicitRepos,
        jsToLower r.fullName = jsToLower o.fullName
        ∧ r.customProperties = o.customProperties
        ∧ r.nodeId = e.nodeId := by
  obtain ⟨E1, E2, hsplit⟩ := List.append_of_mem he
  have hekeys : (jsToLower e.fullName ∉ E1.map (fun r => jsToLower r.fullName))
      ∧ (jsToLower e.fullName ∉ E2.map (fun r => jsToLower r.fullName)) := by
    rw [hsplit] at hexp
    simp only [List.map_append, List.map_cons] at hexp
    have h1 := (List.nodup_append.mp hexp).2.2
    have h2 := List.nodup_cons.mp (List.nodup_append.mp hexp).2.1
    constructor
    · intro hmem
      exact h1 hmem (List.mem_cons_self _ _)
    · exact h2.1
  have hm1 := mapGet_m1 orgRepos o horg ho
  have hm1inv : mergedInv
      (orgRepos.foldl (fun m r => mapSet m (jsToLower r.fullName) r) []) := by
    rw [foldl_mapSet_append orgRepos [] (by simp) horg, List.nil_append]
    constructor
    · rw [List.map_map]
      exact horg
    · intro p hp
      rcases List.mem_map.mp hp with ⟨r, _, hrp⟩
      rw [← hrp]
  set m1 := orgRepos.foldl (fun m r => mapSet m (jsToLower r.fullName) r) [] with hm1def
  have hE1 : mapGet (E1.foldl mergeStep m1) (jsToLower o.fullName)
      = some (jsToLower o.fullName, o) := by
    rw [foldl_mergeStep_mapGet_other (jsToLower o.fullName) E1 m1 ?_, hm1]
    intro r hr hcon
    exact hekeys.1 (by rw [hkey, ← hcon]; exact List.mem_map.mpr ⟨r, hr, rfl⟩)
  set v : DiscoveredRepo :=
    { e with customProperties := jsObjSpread e.customProperties o.customProperties } with hv
  have hstep : mapGet (mergeStep (E1.foldl mergeStep m1) e) (jsToLower o.fullName)
      = some (jsToLower o.fullName, v) := by
    have := mergeStep_mapGet_same (E1.foldl mergeStep m1) e (jsToLower o.fullName, o)
      (by rw [show repoKey e = jsToLower o.fullName from hkey]; exact hE1)
    rw [show repoKey e = jsToLower o.fullName from hkey] at this
    exact this
  have hfinal : mapGet (explicitRepos.foldl mergeStep m1) (jsToLower o.fullName)
      = some (jsToLower o.fullName, v) := by
    rw [hsplit, List.foldl_append, List.foldl_cons]
    rw [foldl_mergeStep_mapGet_other (jsToLower o.fullName) E2 _ ?_, hstep]
    intro r hr hcon
    exact hekeys.2 (by rw [hkey, ← hcon]; exact List.mem_map.mpr ⟨r, hr, rfl⟩)
  have hinv : mergedInv (explicitRepos.foldl mergeStep m1) :=
    foldl_mergeStep_inv explicitRepos m1 hm1inv
  have hmerged : discoverReposMerge orgRepos explicitRepos
      = (explicitRepos.foldl mergeStep m1).map (fun p => p.2) := rfl
  constructor
  · rw [hmerged, List.filter_map]
    rw [List.filter_congr (q := fun p => p.1 == jsToLower o.fullName) ?_]
    · rw [List.length_map]
      exact filter_length_one_of_nodup (jsToLower o.fullName) _ hinv.1
        (by rw [hfinal]; rfl)
    · intro p hp
      simp only [Function.comp]
      rw [hinv.2 p hp]
  · refine ⟨v, ?_, ?_, ?_, rfl⟩
    · rw [hmerged]
      exact List.mem_map.mpr ⟨(jsToLower o.fullName, v),
        List.mem_of_find?_eq_some hfinal, rfl⟩
    · exact hkey
    · rw [hv]
      simp only
      rw [hprops, jsObjSpread_nil]

/-- Explicit discovery always attaches an empty attribute map to every
repository it returns. -/
theorem discoverByExplicitList_props_empty (defaultOwner : String)
    (repoNames : List String)
    (getRepoOutcome : String → String → Except GitHubApiError GitHubRepo)
    (repos : List DiscoveredRepo)
    (h : discoverByExplicitList defaultOwner repoNames getRepoOutcome = .ok repos) :
    ∀ r ∈ repos, r.customProperties = [] := by
  have hfold : ∀ (names : List String) (acc : List DiscoveredRepo × List String),
      (∀ r ∈ acc.1, r.customProperties = []) →
      ∀ r ∈ (names.foldl (explicitStep defaultOwner getRepoOutcome) acc).1,
        r.customProperties = [] := by
    intro names
    induction names with
    | nil => intro acc hacc; exact hacc
    | cons n rest ih =>
      intro acc hacc
      rw [List.foldl_cons]
      refine ih _ ?_
      intro r hr
      cases hout : getRepoOutcome ((splitOwnerRepo defaultOwner n).1)
          ((splitOwnerRepo defaultOwner n).2) with
      | ok data =>
        simp only [explicitStep, hout] at hr
        rcases List.mem_append.mp hr with h1 | h2
        · exact hacc r h1
        · have hre : r = explicitRepoOfData data := by simpa using h2
          rw [hre]
          rfl
      | error err =>
        simp only [explicitStep, hout] at hr
        have hr2 : r ∈ acc.1 := by
          revert hr
          split <;> (intro hr; exact hr)
        exact hacc r hr2
  unfold discoverByExplicitList at h
  by_cases hempty : repoNames.isEmpty = true
  · rw [if_pos hempty] at h
    injection h with h
    subst h
    intro r hr
    cases hr
  · rw [if_neg hempty] at h
    by_cases hcond :
        (repoNames.foldl (explicitStep defaultOwner getRepoOutcome) ([], [])).1.isEmpty = true
        ∧ ¬ (repoNames.foldl (explicitStep defaultOwner getRepoOutcome) ([], [])).2.isEmpty
          = true
    · rw [if_pos hcond] at h
      cases h
    · rw [if_neg hcond] at h
      injection h with h
      subst h
      exact hfold repoNames ([], []) (fun r hr => absurd hr (List.not_mem_nil r))

/-- Witness for C7: the same repository discovered by both modes (differing
only in full-name casing and attribute maps) merges to one entry carrying
the org-discovered attributes. -/
theorem discovery_merge_dedup_witness :
    ((discoverReposMerge
        [⟨"repo-a", "org", "org/Repo-A", "R_1", [("team", "platform")]⟩]
        [⟨"repo-a", "org", "org/repo-a", "R_1", []⟩]).filter
      (fun r => jsToLower r.fullName == jsToLower "org/Repo-A")).length = 1
    ∧ ∃ r ∈ discoverReposMerge
        [⟨"repo-a", "org", "org/Repo-A", "R_1", [("team", "platform")]⟩]
        [⟨"repo-a", "org", "org/repo-a", "R_1", []⟩],
        jsToLower r.fullName = jsToLower "org/Repo-A"
        ∧ r.customProperties = [("team", "platform")]
        ∧ r.nodeId = "R_1" := by
  have h := discovery_merge_dedup
    [⟨"repo-a", "org", "org/Repo-A", "R_1", [("team", "platform")]⟩]
    [⟨"repo-a", "org", "org/repo-a", "R_1", []⟩]
    ⟨"repo-a", "org", "org/Repo-A", "R_1", [("team", "platform")]⟩
    ⟨"repo-a", "org", "org/repo-a", "R_1", []⟩
    (by decide) (by decide) (by decide) (by decide) (by decide) rfl
  exact h

end SilkSync
